import Mathlib

/-!
# Verification of the parallel testify suite orchestrator

A shallow embedding, in Lean 4, of the test-lifecycle orchestrator in
`suite/suite.go` of the `varunbpatil/testify` repository, together with
theorems settling the specification claims about it.

The embedding covers:
* the run-set selection (`methodFilter`, the `testify.m` / `testify.x` flags)
  with a small regular-expression engine standing in for Go's `regexp`
  (Brzozowski derivatives; anchored and unanchored search);
* the lifecycle scheduler (`Run`, `Suite.Run`): suite / test / sub-test
  nesting, scoped-cleanup registration (`T.Cleanup` semantics: cleanups run
  after the node and all of its — possibly parallel — descendants, in
  reverse-registration order), the recovery boundary for panics, and the
  statistics collector;
* the once-only setters (`setT`/`setG`/`setS`/`setP`) and `Parent`.

Deterministic modelling of the engine: a child that opts into parallel
execution is deferred until the spawning function body has returned, and a
node's cleanups run only after all of its (deferred) children have finished —
exactly the ordering contract `testing.T` guarantees and the only ordering
facts the claims appeal to.
-/

namespace Testify

/-- Equality of `Except` results is decidable (needed to evaluate the
model on concrete inputs). -/
instance {e a : Type} [DecidableEq e] [DecidableEq a] :
    DecidableEq (Except e a) := fun x y =>
  match x, y with
  | .error u, .error v =>
      if h : u = v then .isTrue (by rw [h])
      else .isFalse (by intro hc; cases hc; exact h rfl)
  | .error _, .ok _ => .isFalse (by intro hc; cases hc)
  | .ok _, .error _ => .isFalse (by intro hc; cases hc)
  | .ok u, .ok v =>
      if h : u = v then .isTrue (by rw [h])
      else .isFalse (by intro hc; cases hc; exact h rfl)

/-! ## Regular expressions (model of Go `regexp` as used by `methodFilter`) -/

/-- Core regular expressions (no anchors). -/
inductive Regex where
  | emptyset : Regex
  | eps : Regex
  | ch : Char → Regex
  | alt : Regex → Regex → Regex
  | cat : Regex → Regex → Regex
  | star : Regex → Regex
deriving DecidableEq

/-- Does the regex accept the empty word? -/
def Regex.nullable : Regex → Bool
  | .emptyset => false
  | .eps => true
  | .ch _ => false
  | .alt r s => r.nullable || s.nullable
  | .cat r s => r.nullable && s.nullable
  | .star _ => true

/-- Brzozowski derivative of a regex by one character. -/
def Regex.deriv : Regex → Char → Regex
  | .emptyset, _ => .emptyset
  | .eps, _ => .emptyset
  | .ch c, a => if a = c then .eps else .emptyset
  | .alt r s, a => .alt (r.deriv a) (s.deriv a)
  | .cat r s, a =>
      if r.nullable then .alt (.cat (r.deriv a) s) (s.deriv a)
      else .cat (r.deriv a) s
  | .star r, a => .cat (r.deriv a) (.star r)

/-- Whole-word acceptance. -/
def reAccept (r : Regex) : List Char → Bool
  | [] => r.nullable
  | c :: cs => reAccept (r.deriv c) cs

/-- Some prefix of the word is accepted (search anchored at the start). -/
def reHead (r : Regex) : List Char → Bool
  | [] => r.nullable
  | c :: cs => r.nullable || reHead (r.deriv c) cs

/-- Some suffix of the word is accepted (search anchored at the end). -/
def reTail (r : Regex) : List Char → Bool
  | [] => r.nullable
  | c :: cs => reAccept r (c :: cs) || reTail r cs

/-- Some substring of the word is accepted (unanchored search). -/
def reFind (r : Regex) : List Char → Bool
  | [] => r.nullable
  | c :: cs => reHead r (c :: cs) || reFind r cs

/-- A compiled Go pattern: optional `^` / `$` anchors around a core regex
(the only pattern forms the repository's flags use). -/
structure GoPattern where
  anchorStart : Bool
  anchorEnd : Bool
  core : Regex
deriving DecidableEq

/-- Model of Go's `regexp.MatchString pat s`: unanchored search, with the
anchors of the pattern deciding which ends are pinned. -/
def GoPattern.matchString (p : GoPattern) (s : String) : Bool :=
  match p.anchorStart, p.anchorEnd with
  | true, true => reAccept p.core s.data
  | true, false => reHead p.core s.data
  | false, true => reTail p.core s.data
  | false, false => reFind p.core s.data

/-- The regex accepting exactly the given literal string. -/
def strRe (s : String) : Regex :=
  s.data.foldr (fun c r => .cat (.ch c) r) .eps

/-- The hardcoded pattern `"^Test"` of `methodFilter`. -/
def testNamePattern : GoPattern := ⟨true, false, strRe "Test"⟩

/-- The state of one of the `testify.m` / `testify.x` flags: unset (empty
string), a pattern that compiles, or a string that fails to compile. -/
inductive FlagVal where
  | empty : FlagVal
  | pat : GoPattern → FlagVal
  | invalid : FlagVal
deriving DecidableEq

/-- `regexp.MatchString` on a flag value: an invalid pattern yields the
compile error (Go returns `(false, err)`; the boolean is discarded by the
caller on error, so we model it as `Except`). An empty pattern matches
everything. -/
def FlagVal.matchString : FlagVal → String → Except Unit Bool
  | .empty, _ => .ok true
  | .pat p, s => .ok (p.matchString s)
  | .invalid, _ => .error ()

/-- `methodFilter` (suite.go:376–397): drop names not starting with `Test`;
if `testify.m` is set, decide by it alone; otherwise if `testify.x` is set,
exclude matching names; otherwise keep the name. -/
def methodFilter (mF xF : FlagVal) (name : String) : Except Unit Bool :=
  if !(testNamePattern.matchString name) then .ok false
  else if mF ≠ .empty then mF.matchString name
  else if xF ≠ .empty then
    match xF.matchString name with
    | .ok b => .ok (!b)
    | .error e => .error e
  else .ok true

/-! ## Suite state setters (`setT`/`setG`/`setS`/`setP`, suite.go:110–142)

The four private fields are Go pointers; `none` models `nil`. A Go `panic`
is modelled as `Except.error` carrying the panic message. Pointers are
identified by a numeric id. -/

/-- The four pointer-valued private fields of a `Suite[T, G]` value. -/
structure SuitePtrs where
  testingT : Option Nat
  g : Option Nat
  suite : Option Nat
  parent : Option Nat
deriving DecidableEq

/-- `Parent` (suite.go:106–108). -/
def SuitePtrs.Parent (s : SuitePtrs) : Option Nat := s.parent

/-- `setT` (suite.go:111–118): panics if `s.T() != nil`. -/
def SuitePtrs.setT (s : SuitePtrs) (t : Option Nat) : Except String SuitePtrs :=
  if s.testingT ≠ none then .error "Suite.testingT already set, can't overwrite"
  else .ok { s with testingT := t }

/-- `setG` (suite.go:121–126): panics if `s.G() != nil`. -/
def SuitePtrs.setG (s : SuitePtrs) (g : Option Nat) : Except String SuitePtrs :=
  if s.g ≠ none then .error "Suite.g already set, can't overwrite"
  else .ok { s with g := g }

/-- `setS` (suite.go:129–134): panics if `s.suite != nil`. -/
def SuitePtrs.setS (s : SuitePtrs) (v : Option Nat) : Except String SuitePtrs :=
  if s.suite ≠ none then .error "Suite.suite already set, can't overwrite"
  else .ok { s with suite := v }

/-- `setP` (suite.go:137–142): panics if `s.parent != nil`. -/
def SuitePtrs.setP (s : SuitePtrs) (v : Option Nat) : Except String SuitePtrs :=
  if s.parent ≠ none then .error "Suite.parent already set, can't overwrite"
  else .ok { s with parent := v }

/-! ## Lifecycle scheduler model

Observable events emitted by hook invocations and recovery boundaries.
Test and sub-test nodes are identified by their slash-separated engine path
(as `testing.T.Name()` builds it). -/

/-- One observable event of a suite run. -/
inductive Ev where
  | warnNoTests : Ev
  | setupSuite : Ev
  | tearDownSuite : Ev
  | handleStats : Ev
  | setupTest : String → Ev
  | beforeTest : String → String → Ev
  | callBody : String → Ev
  | afterTest : String → String → Ev
  | tearDownTest : String → Ev
  | setupSubTest : String → Ev
  | subBody : String → Ev
  | tearDownSubTest : String → Ev
  | panicked : String → Ev
deriving DecidableEq

/-- A record of one context node created during the run: its engine path,
the allocation id of its freshly created private suite instance
(`new(T)`), and the path of the instance stored in its `parent` field
(`none` models `nil`). -/
structure NodeInfo where
  path : String
  selfId : Nat
  parent : Option String
deriving DecidableEq

/-- A test (or sub-test) body: it may finish, panic, or request a named
sub-test via `s.Run(name, fn)` — sequentially or after opting into
parallel execution — and then continue. -/
inductive Body where
  | stop : Body
  | panicB : Body
  | sub (name : String) (par : Bool) (inner : Body) (rest : Body) : Body
deriving DecidableEq

/-- Termination measure for body execution. -/
def Body.size : Body → Nat
  | .stop => 1
  | .panicB => 2
  | .sub _ _ inner rest => 3 + inner.size + rest.size

/-- Termination measure for the queue of parallel children awaiting
execution. -/
def qsize (q : List (String × Body)) : Nat :=
  (q.map (fun x => x.2.size + 2)).sum

/-- A method of the suite type: its name, whether its body opts into
parallel execution, and its body. -/
structure MethodSpec where
  name : String
  par : Bool
  body : Body
deriving DecidableEq

/-- A suite definition: which optional lifecycle capabilities the suite
type implements, which hook invocations panic (keyed by the node's engine
path; suite-level hooks run once so a plain `Bool` suffices), and the
declared methods in declaration order. -/
structure SuiteCfg where
  suiteName : String
  hasSetupSuite : Bool
  hasTearDownSuite : Bool
  hasSetupTest : Bool
  hasTearDownTest : Bool
  hasBeforeTest : Bool
  hasAfterTest : Bool
  hasSetupSubTest : Bool
  hasTearDownSubTest : Bool
  hasStats : Bool
  setupSuitePanics : Bool
  tearDownSuitePanics : Bool
  handleStatsPanics : Bool
  setupTestPanics : String → Bool
  tearDownTestPanics : String → Bool
  beforeTestPanics : String → Bool
  afterTestPanics : String → Bool
  setupSubTestPanics : String → Bool
  tearDownSubTestPanics : String → Bool
  methods : List MethodSpec

/-- Trace of one optional hook invocation inside a recovery boundary at
node `p`: nothing if the capability is absent, the hook event if it runs
normally, and the hook event followed by the recovery-boundary event if it
panics. -/
def hookTrace (present panics : Bool) (ev : Ev) (p : String) : List Ev :=
  if present then
    if panics then [ev, .panicked p] else [ev]
  else []

/-- Result of running one node (and its whole subtree): the emitted events,
whether the node ended up failed (its own failures and, by the engine's
rollup, any descendant's), and the context nodes created in its subtree. -/
structure NodeRes where
  trace : List Ev
  failed : Bool
  nodes : List NodeInfo
deriving DecidableEq

/-- Assembly of one sub-test node (`Suite.Run`, suite.go:178–217) around
the result of running its body: a fresh suite instance is allocated (id
`selfId`) with the caller's suite instance as parent; the
`TearDownSubTest` cleanup is registered *before* `SetupSubTest` runs, so
it fires even when `SetupSubTest` panics; a panic in `SetupSubTest` is
recovered at this node's boundary and skips the body; the cleanup fires
only after the node's body and all of its (parallel) descendants have
finished. -/
def subNodeAssemble (cfg : SuiteCfg) (parentPath name : String)
    (selfId : Nat) (bodyRes : NodeRes × Nat) : NodeRes × Nat :=
  let path := parentPath ++ "/" ++ name
  let info : NodeInfo := ⟨path, selfId, some parentPath⟩
  let mainRes : NodeRes × Nat :=
    if cfg.hasSetupSubTest then
      if cfg.setupSubTestPanics path then
        (⟨[.setupSubTest path, .panicked path], true, []⟩, selfId + 1)
      else
        (⟨.setupSubTest path :: .subBody path :: bodyRes.1.trace,
          bodyRes.1.failed, bodyRes.1.nodes⟩, bodyRes.2)
    else
      (⟨.subBody path :: bodyRes.1.trace, bodyRes.1.failed,
        bodyRes.1.nodes⟩, bodyRes.2)
  let tdTrace := hookTrace cfg.hasTearDownSubTest
    (cfg.tearDownSubTestPanics path) (.tearDownSubTest path) path
  let tdFailed := cfg.hasTearDownSubTest && cfg.tearDownSubTestPanics path
  (⟨mainRes.1.trace ++ tdTrace, mainRes.1.failed || tdFailed,
    info :: mainRes.1.nodes⟩, mainRes.2)

/-- Execution of a node's body at path `path` together with the queue `q`
of children that opted into parallel execution: sequential children run
inline; parallel children are deferred and run after the body returns
(exactly when the engine resumes them), still before the node's cleanups.
A panic in the body is recovered at the node's boundary — after the
truncated body, already-registered parallel children still run. The `Nat`
argument is fuel making the recursion structural; callers pass at least
`b.size + qsize q`, which the recursion never exhausts. -/
def runBQF (cfg : SuiteCfg) :
    Nat → String → Body → List (String × Body) → Nat → NodeRes × Nat
  | 0, _, _, _, _ => (⟨[], false, []⟩, 0)
  | fuel + 1, path, b, q, k =>
    match b, q with
    | .stop, [] => (⟨[], false, []⟩, k)
    | .stop, (nm, ib) :: q2 =>
        let r1 := subNodeAssemble cfg path nm k
          (runBQF cfg fuel (path ++ "/" ++ nm) ib [] (k + 1))
        let r2 := runBQF cfg fuel path .stop q2 r1.2
        (⟨r1.1.trace ++ r2.1.trace, r1.1.failed || r2.1.failed,
          r1.1.nodes ++ r2.1.nodes⟩, r2.2)
    | .panicB, q0 =>
        let r := runBQF cfg fuel path .stop q0 k
        (⟨.panicked path :: r.1.trace, true, r.1.nodes⟩, r.2)
    | .sub nm par ib rest, q0 =>
        if par then runBQF cfg fuel path rest (q0 ++ [(nm, ib)]) k
        else
          let r1 := subNodeAssemble cfg path nm k
            (runBQF cfg fuel (path ++ "/" ++ nm) ib [] (k + 1))
          let r2 := runBQF cfg fuel path rest q0 r1.2
          (⟨r1.1.trace ++ r2.1.trace, r1.1.failed || r2.1.failed,
            r1.1.nodes ++ r2.1.nodes⟩, r2.2)

/-- Run a body and its deferred parallel children (fuel instantiated with
the exact termination measure). -/
def runBodyAndQueue (cfg : SuiteCfg) (path : String) (b : Body)
    (q : List (String × Body)) (k : Nat) : NodeRes × Nat :=
  runBQF cfg (b.size + qsize q) path b q k

/-- `Suite.Run` (suite.go:178–217): one sub-test node, complete with its
body's whole subtree. -/
def runSubNode (cfg : SuiteCfg) (parentPath name : String) (inner : Body)
    (nid : Nat) : NodeRes × Nat :=
  subNodeAssemble cfg parentPath name nid
    (runBodyAndQueue cfg (parentPath ++ "/" ++ name) inner [] (nid + 1))

/-! ## Statistics collector -/

/-- Modelled from the spec: per-test statistics entry. The file defining
`SuiteInformation`/`TestInformation` (`stats.go`) is not part of the given
sources — only its callers in `suite.go` and its shape in the spec are:
`{Start, End, Passed}` per test. Time is a logical clock (`Nat`,
starting at 1), so a recorded timestamp is never zero. -/
structure TestInformation where
  Start : Nat
  End : Nat
  Passed : Bool
deriving DecidableEq

/-- Modelled from the spec: the aggregate statistics record delivered to
`HandleStats`: overall start/end time plus a map from test name to its
`TestInformation` (insertion-ordered association list). -/
structure SuiteInformation where
  Start : Nat
  End : Nat
  TestStats : List (String × TestInformation)
deriving DecidableEq

/-- Modelled from the spec: a fresh, empty statistics record
(`newSuiteInformation`). -/
def newSuiteInformation : SuiteInformation := ⟨0, 0, []⟩

/-- Modelled from the spec: `stats.start(testName)` — record the test's
start time. -/
def SuiteInformation.startTest (s : SuiteInformation) (name : String)
    (now : Nat) : SuiteInformation :=
  if (s.TestStats.lookup name).isSome then
    { s with TestStats :=
        s.TestStats.map (fun p => if p.1 = name then (name, ⟨now, 0, false⟩) else p) }
  else
    { s with TestStats := s.TestStats ++ [(name, ⟨now, 0, false⟩)] }

/-- Modelled from the spec: `stats.end(testName, passed)` — record the
test's end time and outcome. -/
def SuiteInformation.endTest (s : SuiteInformation) (name : String)
    (passed : Bool) (now : Nat) : SuiteInformation :=
  { s with TestStats :=
      s.TestStats.map (fun p =>
        if p.1 = name then (p.1, ⟨p.2.Start, now, passed⟩) else p) }

/-- Modelled from the spec: `SuiteInformation.Passed()` — the overall run
passed iff every recorded test passed. -/
def SuiteInformation.Passed (s : SuiteInformation) : Bool :=
  s.TestStats.all (fun p => p.2.Passed)

/-- Scheduler-level mutable state threaded through the test loop: the
allocation counter for fresh suite instances, the logical clock, and the
optional statistics record. -/
structure SState where
  nid : Nat
  clock : Nat
  si : Option SuiteInformation
deriving DecidableEq

/-- `stats.start(method.Name)` at test start (suite.go:329), a no-op when
the suite collects no statistics. -/
def statsStart (st : SState) (name : String) : SState :=
  match st.si with
  | none => st
  | some si => { st with clock := st.clock + 1, si := some (si.startTest name st.clock) }

/-- The per-test scoped cleanup `stats.end(method.Name, !newS.Failed())`
(suite.go:326); it is registered first, hence fires last, after the test's
teardown hooks. -/
def statsEnd (st : SState) (name : String) (passed : Bool) : SState :=
  match st.si with
  | none => st
  | some si => { st with clock := st.clock + 1, si := some (si.endTest name passed st.clock) }

/-- The per-test closure `F` (suite.go:306–363), statistics aside: a fresh
suite instance with the root suite instance as parent; cleanups are
registered in the order `TearDownTest`, `AfterTest` (so they fire in
reverse: `AfterTest` then `TearDownTest`), each only once control reaches
its registration point; `SetupTest`, `BeforeTest` and the body run inside
the node's recovery boundary. -/
def runTestNode (cfg : SuiteCfg) (rootName : String) (m : MethodSpec)
    (nid : Nat) : NodeRes × Nat :=
  let path := rootName ++ "/" ++ m.name
  let sn := cfg.suiteName
  let info : NodeInfo := ⟨path, nid, some rootName⟩
  -- main phase: (trace, failed, AfterTest cleanup registered?, nodes, next id)
  let main : List Ev × Bool × Bool × List NodeInfo × Nat :=
    if cfg.hasSetupTest && cfg.setupTestPanics path then
      ([.setupTest path, .panicked path], true, false, [], nid + 1)
    else
      let t1 := hookTrace cfg.hasSetupTest false (.setupTest path) path
      if cfg.hasBeforeTest && cfg.beforeTestPanics path then
        (t1 ++ [.beforeTest sn m.name, .panicked path], true, cfg.hasAfterTest, [], nid + 1)
      else
        let t2 := hookTrace cfg.hasBeforeTest false (.beforeTest sn m.name) path
        let r := runBodyAndQueue cfg path m.body [] (nid + 1)
        (t1 ++ t2 ++ .callBody path :: r.1.trace, r.1.failed, cfg.hasAfterTest, r.1.nodes, r.2)
  let aTr := hookTrace main.2.2.1 (cfg.afterTestPanics path) (.afterTest sn m.name) path
  let aF := main.2.2.1 && cfg.afterTestPanics path
  let tTr := hookTrace cfg.hasTearDownTest (cfg.tearDownTestPanics path)
    (.tearDownTest path) path
  let tF := cfg.hasTearDownTest && cfg.tearDownTestPanics path
  (⟨main.1 ++ aTr ++ tTr, main.2.1 || aF || tF, info :: main.2.2.2.1⟩, main.2.2.2.2)

/-- One test method run inside the statistics bracket: `stats.start`
immediately before the node's setup chain, `stats.end` with
`!newS.Failed()` once the node's scoped cleanups have fired. -/
def runTestNodeStats (cfg : SuiteCfg) (rootName : String) (m : MethodSpec)
    (st : SState) : NodeRes × SState :=
  let st1 := statsStart st m.name
  let r := runTestNode cfg rootName m st1.nid
  let st2 := statsEnd { st1 with nid := r.2 } m.name (!r.1.failed)
  (r.1, st2)

/-- Result of running a list of test methods. -/
structure TestsRes where
  trace : List Ev
  failed : Bool
  nodes : List NodeInfo
  state : SState
deriving DecidableEq

/-- Run the test methods in order (the engine schedules each queued
parallel test after the loop; callers pass the sequential tests followed
by the parallel ones). -/
def execTests (cfg : SuiteCfg) (rootName : String) :
    List MethodSpec → SState → TestsRes
  | [], st => ⟨[], false, [], st⟩
  | m :: ms, st =>
      let r := runTestNodeStats cfg rootName m st
      let rs := execTests cfg rootName ms r.2
      ⟨r.1.trace ++ rs.trace, r.1.failed || rs.failed, r.1.nodes ++ rs.nodes, rs.state⟩

/-- The run-set selection loop of `Run` (suite.go:241–252): filter the
declared methods in declaration order, aborting on the first invalid
pattern (`os.Exit(1)` is modelled as `Except.error`). -/
def selectMethods (mF xF : FlagVal) : List MethodSpec → Except Unit (List MethodSpec)
  | [] => .ok []
  | m :: ms =>
      match methodFilter mF xF m.name with
      | .error e => .error e
      | .ok true => (selectMethods mF xF ms).map (m :: ·)
      | .ok false => selectMethods mF xF ms

/-- The scheduler state at the start of the test loop: allocation id 1 (the
root suite instance took id 0), and — iff the suite collects statistics —
a fresh record whose overall start time is stamped with the first clock
tick (suite.go:262,279). -/
def initSState (cfg : SuiteCfg) : SState :=
  ⟨1, if cfg.hasStats then 2 else 1,
    (if cfg.hasStats then some newSuiteInformation else none).map
      (fun s => { s with Start := 1 })⟩

/-- The order in which the engine completes the test loop's children:
sequential tests run inside the loop, parallel tests are deferred and run
once the loop (and the surrounding test function) has returned. -/
def orderedTests (sel : List MethodSpec) : List MethodSpec :=
  sel.filter (fun m => !m.par) ++ sel.filter (fun m => m.par)

/-- Result of one whole suite run. -/
structure RunResult where
  trace : List Ev
  failed : Bool
  delivered : Option SuiteInformation
  nodes : List NodeInfo
deriving DecidableEq

/-- `Run` (suite.go:220–373): create the root node (parent `nil`), compute
the run set (exiting on an invalid pattern); with an empty run set, log a
warning and return successfully before any hook or statistics activity.
Otherwise: create the statistics record iff the suite implements
`WithStats`; register the statistics-delivery cleanup, then the
`TearDownSuite` cleanup (so teardown fires first, delivery last); record
the overall start time; run `SetupSuite` inside the root recovery boundary
(a panic skips the whole test loop); run each selected test as a child
node — sequential ones inline, parallel ones once the loop is done; after
all the tests' subtrees finish, the scoped cleanups fire: `TearDownSuite`,
then overall end time and `HandleStats`, each inside a recovery boundary. -/
def suiteRun (cfg : SuiteCfg) (rootName : String) (mF xF : FlagVal) :
    Except Unit RunResult :=
  let rootInfo : NodeInfo := ⟨rootName, 0, none⟩
  match selectMethods mF xF cfg.methods with
  | .error e => .error e
  | .ok sel =>
    if sel.isEmpty then
      .ok ⟨[.warnNoTests], false, none, [rootInfo]⟩
    else
      let st0 := initSState cfg
      let mainRes : List Ev × Bool × List NodeInfo × SState :=
        if cfg.hasSetupSuite && cfg.setupSuitePanics then
          ([.setupSuite, .panicked rootName], true, [], st0)
        else
          let t0 := hookTrace cfg.hasSetupSuite false .setupSuite rootName
          let r := execTests cfg rootName (orderedTests sel) st0
          (t0 ++ r.trace, r.failed, r.nodes, r.state)
      let tdsT := hookTrace cfg.hasTearDownSuite cfg.tearDownSuitePanics
        .tearDownSuite rootName
      let tdsF := cfg.hasTearDownSuite && cfg.tearDownSuitePanics
      let delivered := mainRes.2.2.2.si.map
        (fun s => { s with End := mainRes.2.2.2.clock })
      let hsT := hookTrace cfg.hasStats cfg.handleStatsPanics
        .handleStats rootName
      let hsF := cfg.hasStats && cfg.handleStatsPanics
      .ok ⟨mainRes.1 ++ tdsT ++ hsT, mainRes.2.1 || tdsF || hsF,
        delivered, rootInfo :: mainRes.2.2.1⟩

/-- The private-data store: maps an allocation id to that instance's
per-test data (represented as an integer payload; `new(T)` zero-initializes
it). -/
def initPriv : Nat → Int := fun _ => 0

/-- Writing one node's private data mutates only that instance's slot. -/
def writePriv (σ : Nat → Int) (i : Nat) (v : Int) : Nat → Int :=
  fun j => if j = i then v else σ j

/-- Events that can be emitted inside a sub-test subtree. -/
def Ev.isSubLocal : Ev → Bool
  | .setupSubTest _ => true
  | .subBody _ => true
  | .tearDownSubTest _ => true
  | .panicked _ => true
  | _ => false

/-- Events emitted only at suite level (never inside a test's subtree). -/
def Ev.isSuiteLevel : Ev → Bool
  | .warnNoTests => true
  | .setupSuite => true
  | .tearDownSuite => true
  | .handleStats => true
  | _ => false

/-- `nd` was created by a `Run` call made on the node at path `pth`: its
parent field holds that caller's suite instance and its engine path extends
the caller's. -/
def childOf (pth : String) (nd : NodeInfo) : Prop :=
  ∃ nm, nd.parent = some pth ∧ nd.path = pth ++ "/" ++ nm

/-! ## Spec-side definitions and concrete instances used by the claims -/

/-- Total boolean matching of a flag value against a name (`empty` matches
everything, an invalid pattern matches nothing). -/
def FlagVal.matchesB : FlagVal → String → Bool
  | .empty, _ => true
  | .pat p, s => p.matchString s
  | .invalid, _ => false

/-- Spec-claimed selection (from the spec's words, for comparison with
`methodFilter`): a name is selected iff it starts with `Test`, matches the
include pattern (an empty include matches everything), and does not match
the exclude pattern (an empty exclude excludes nothing). -/
def includeThenExclude (mF xF : FlagVal) (name : String) : Bool :=
  testNamePattern.matchString name && mF.matchesB name &&
    !(match xF with
      | .empty => false
      | .pat p => p.matchString name
      | .invalid => false)

/-- The selection `methodFilter` actually computes when its flags are
valid: the name must start with `Test`; a non-empty include pattern then
decides alone; otherwise a non-empty exclude pattern drops matching
names. -/
def codeSelects (mF xF : FlagVal) (name : String) : Bool :=
  testNamePattern.matchString name &&
    (if mF ≠ .empty then mF.matchesB name
     else if xF ≠ .empty then !(xF.matchesB name)
     else true)

/-- The include pattern `"^TestA"`. -/
def inclTestA : FlagVal := .pat ⟨true, false, strRe "TestA"⟩

/-- The exclude pattern `"Skip$"`. -/
def exclSkip : FlagVal := .pat ⟨false, true, strRe "Skip"⟩

/-- The operations `TestA1, TestA2Skip, TestB1` of the filtering example. -/
def exampleMethods : List MethodSpec :=
  [⟨"TestA1", false, .stop⟩, ⟨"TestA2Skip", false, .stop⟩,
    ⟨"TestB1", false, .stop⟩]

/-- A suite implementing every lifecycle capability except statistics,
with no panicking hook: the baseline for the ordering claims. -/
def quietCfg (methods : List MethodSpec) : SuiteCfg :=
  { suiteName := "ParallelSuite"
    hasSetupSuite := true, hasTearDownSuite := true
    hasSetupTest := true, hasTearDownTest := true
    hasBeforeTest := true, hasAfterTest := true
    hasSetupSubTest := true, hasTearDownSubTest := true
    hasStats := false
    setupSuitePanics := false, tearDownSuitePanics := false
    handleStatsPanics := false
    setupTestPanics := fun _ => false, tearDownTestPanics := fun _ => false
    beforeTestPanics := fun _ => false, afterTestPanics := fun _ => false
    setupSubTestPanics := fun _ => false, tearDownSubTestPanics := fun _ => false
    methods := methods }

/-- A suite (like `SuiteSetupSkipTester`) whose only method is not a test:
its run set is empty. -/
def noTestsCfg : SuiteCfg := quietCfg [⟨"NonTestMethod", false, .stop⟩]

/-- Two tests, each opting into parallel execution and spawning parallel
sub-tests (like `ParallelSuite.TestOne`/`TestTwo`). -/
def parallelCfg : SuiteCfg :=
  quietCfg
    [⟨"TestOne", true, .sub "sub1" true .stop (.sub "sub2" true .stop .stop)⟩,
      ⟨"TestTwo", true, .sub "sub1" true .stop .stop⟩]

/-- One sequential test with no sub-tests. -/
def oneTestCfg : SuiteCfg := quietCfg [⟨"TestOne", false, .stop⟩]

/-- Modelled from the spec's words (claim C8): the parent reference of
every top-level test node (the node created for a selected method `m`, at
path `rn/m.name`) is nil. -/
def topLevelParentsNil (cfg : SuiteCfg) (rn : String) (rr : RunResult) : Prop :=
  ∀ m ∈ cfg.methods, ∀ nd ∈ rr.nodes,
    nd.path = rn ++ "/" ++ m.name → nd.parent = none

/-- `oneTestCfg` with a panicking `SetupSuite`. -/
def setupSuitePanicCfg : SuiteCfg :=
  { quietCfg [⟨"TestOne", false, .stop⟩] with setupSuitePanics := true }

/-- `oneTestCfg` with a `SetupTest` that panics on the single test. -/
def setupTestPanicCfg : SuiteCfg :=
  { quietCfg [⟨"TestOne", false, .stop⟩] with
    setupTestPanics := fun p => decide (p = "Root/TestOne") }

/-- A suite whose `SetupSubTest` panics for the sub-test `sub1`. -/
def setupSubPanicCfg : SuiteCfg :=
  { quietCfg [] with
    setupSubTestPanics := fun p => decide (p = "Root/TestOne/sub1") }

/-- The ten places claim C5 names where a single panic may occur. -/
inductive PanicLoc where
  | inSetupSuite : PanicLoc
  | inSetupTest : PanicLoc
  | inBeforeTest : PanicLoc
  | inBody : PanicLoc
  | inSubBody : PanicLoc
  | inTearDownSubTest : PanicLoc
  | inAfterTest : PanicLoc
  | inTearDownTest : PanicLoc
  | inTearDownSuite : PanicLoc
  | inHandleStats : PanicLoc
deriving DecidableEq

/-- Body of the probe test: panics when the probed location is the test
body, otherwise runs one sub-test, which panics only when the probed
location is the sub-test body. -/
def probeBody (loc : PanicLoc) : Body :=
  if loc = .inBody then .panicB
  else .sub "SubTest" false (if loc = .inSubBody then .panicB else .stop) .stop

/-- A statistics-collecting suite (like `panickingSuite`) with a probe
test (plus one sub-test) and an unrelated sibling test, where exactly the
hook named by `loc` panics — and only on the probe's own nodes. -/
def probeCfg (loc : PanicLoc) : SuiteCfg :=
  { suiteName := "PanickingSuite"
    hasSetupSuite := true, hasTearDownSuite := true
    hasSetupTest := true, hasTearDownTest := true
    hasBeforeTest := true, hasAfterTest := true
    hasSetupSubTest := true, hasTearDownSubTest := true
    hasStats := true
    setupSuitePanics := decide (loc = .inSetupSuite)
    tearDownSuitePanics := decide (loc = .inTearDownSuite)
    handleStatsPanics := decide (loc = .inHandleStats)
    setupTestPanics := fun p =>
      decide (loc = .inSetupTest ∧ p = "Root/TestProbe")
    tearDownTestPanics := fun p =>
      decide (loc = .inTearDownTest ∧ p = "Root/TestProbe")
    beforeTestPanics := fun p =>
      decide (loc = .inBeforeTest ∧ p = "Root/TestProbe")
    afterTestPanics := fun p =>
      decide (loc = .inAfterTest ∧ p = "Root/TestProbe")
    setupSubTestPanics := fun _ => false
    tearDownSubTestPanics := fun p =>
      decide (loc = .inTearDownSubTest ∧ p = "Root/TestProbe/SubTest")
    methods := [⟨"TestProbe", false, probeBody loc⟩,
      ⟨"TestSibling", false, .stop⟩] }

/-- The engine path of the node whose recovery boundary catches the probed
panic. -/
def locNodePath : PanicLoc → String
  | .inSetupSuite => "Root"
  | .inTearDownSuite => "Root"
  | .inHandleStats => "Root"
  | .inSubBody => "Root/TestProbe/SubTest"
  | .inTearDownSubTest => "Root/TestProbe/SubTest"
  | _ => "Root/TestProbe"

/-- The teardown-class actions registered before the probed panic, which
must therefore still fire after it. -/
def locRemainingTeardowns : PanicLoc → List Ev
  | .inSetupSuite => [.tearDownSuite, .handleStats]
  | .inSetupTest => [.tearDownTest "Root/TestProbe", .tearDownSuite]
  | .inBeforeTest => [.afterTest "PanickingSuite" "TestProbe",
      .tearDownTest "Root/TestProbe", .tearDownSuite]
  | .inBody => [.afterTest "PanickingSuite" "TestProbe",
      .tearDownTest "Root/TestProbe", .tearDownSuite]
  | .inSubBody => [.tearDownSubTest "Root/TestProbe/SubTest",
      .afterTest "PanickingSuite" "TestProbe",
      .tearDownTest "Root/TestProbe", .tearDownSuite]
  | .inTearDownSubTest => [.afterTest "PanickingSuite" "TestProbe",
      .tearDownTest "Root/TestProbe", .tearDownSuite]
  | .inAfterTest => [.tearDownTest "Root/TestProbe", .tearDownSuite]
  | .inTearDownTest => [.tearDownSuite, .handleStats]
  | .inTearDownSuite => [.handleStats]
  | .inHandleStats => []

/-- Does the test loop run at all (false only when `SetupSuite` panics,
which aborts the loop before any test starts)? -/
def locTestsRun : PanicLoc → Bool
  | .inSetupSuite => false
  | _ => true

/-- The probe test's recorded outcome: absent when no test ran, passed
when the panic happened at suite level only. -/
def locProbePassed : PanicLoc → Option Bool
  | .inSetupSuite => none
  | .inTearDownSuite => some true
  | .inHandleStats => some true
  | _ => some false

/-- The run result of a suite under empty flags (total extractor used to
state decidable claims about concrete runs). -/
def runOf (cfg : SuiteCfg) (rn : String) : RunResult :=
  match suiteRun cfg rn .empty .empty with
  | .ok r => r
  | .error _ => ⟨[], false, none, []⟩

/-- The statistics scenario of claim C7 (like `suiteWithStats`): the first
test panics in its body, the second passes. -/
def statsScenarioCfg : SuiteCfg :=
  { quietCfg [⟨"TestPanic", false, .panicB⟩, ⟨"TestSomething", false, .stop⟩]
    with suiteName := "suiteWithStats", hasStats := true }

/-! ## Structural lemmas about subtree execution -/

theorem hookTrace_mem {c d : Bool} {ev : Ev} {p : String} {e : Ev}
    (h : e ∈ hookTrace c d ev p) : e = ev ∨ e = .panicked p := by
  unfold hookTrace at h
  split at h
  · split at h
    · simp only [List.mem_cons, List.not_mem_nil, or_false] at h
      exact h
    · simp only [List.mem_cons, List.not_mem_nil, or_false] at h
      exact Or.inl h
  · simp at h

theorem subLocal_not_suiteLevel (e : Ev) (h : e.isSubLocal = true) :
    e.isSuiteLevel = false := by
  cases e <;> simp_all [Ev.isSubLocal, Ev.isSuiteLevel]

theorem Body.size_pos (b : Body) : 1 ≤ b.size := by
  cases b <;> simp only [Body.size] <;> omega

theorem qsize_nil : qsize [] = 0 := rfl

theorem qsize_cons (nm : String) (ib : Body) (q : List (String × Body)) :
    qsize ((nm, ib) :: q) = ib.size + 2 + qsize q := by
  simp [qsize]

theorem qsize_append (a b : List (String × Body)) :
    qsize (a ++ b) = qsize a + qsize b := by
  simp [qsize]

/-- The fuel argument of `runBQF` is irrelevant once it is at least the
termination measure `b.size + qsize q`. -/
theorem runBQF_fuel_irrel (cfg : SuiteCfg) :
    ∀ (f1 f2 : Nat) (path : String) (b : Body) (q : List (String × Body))
      (k : Nat), b.size + qsize q ≤ f1 → b.size + qsize q ≤ f2 →
      runBQF cfg f1 path b q k = runBQF cfg f2 path b q k := by
  intro f1
  induction f1 with
  | zero =>
      intro f2 path b q k h1 h2
      have := Body.size_pos b
      omega
  | succ n1 ih =>
      intro f2 path b q k h1 h2
      cases f2 with
      | zero =>
          have := Body.size_pos b
          omega
      | succ n2 =>
          cases b with
          | stop =>
              cases q with
              | nil => simp [runBQF]
              | cons hd q2 =>
                  obtain ⟨nm, ib⟩ := hd
                  rw [qsize_cons] at h1 h2
                  simp only [Body.size] at h1 h2
                  have e1 : runBQF cfg n1 (path ++ "/" ++ nm) ib [] (k + 1) =
                      runBQF cfg n2 (path ++ "/" ++ nm) ib [] (k + 1) := by
                    apply ih
                    · simp only [qsize_nil, qsize_cons, qsize_append]; omega
                    · simp only [qsize_nil, qsize_cons, qsize_append]; omega
                  simp only [runBQF]
                  rw [e1]
                  rw [ih n2 path .stop q2
                    (subNodeAssemble cfg path nm k
                      (runBQF cfg n2 (path ++ "/" ++ nm) ib [] (k + 1))).2
                    (by simp [Body.size]; omega) (by simp [Body.size]; omega)]
          | panicB =>
              simp only [Body.size] at h1 h2
              simp only [runBQF]
              rw [ih n2 path .stop q k
                (by simp [Body.size]; omega) (by simp [Body.size]; omega)]
          | sub nm par ib rest =>
              simp only [Body.size] at h1 h2
              simp only [runBQF]
              by_cases hp : par = true
              · rw [if_pos hp, if_pos hp]
                apply ih
                · rw [qsize_append, qsize_cons]; simp only [qsize_nil]; omega
                · rw [qsize_append, qsize_cons]; simp only [qsize_nil]; omega
              · rw [if_neg hp, if_neg hp]
                have e1 : runBQF cfg n1 (path ++ "/" ++ nm) ib [] (k + 1) =
                    runBQF cfg n2 (path ++ "/" ++ nm) ib [] (k + 1) := by
                  apply ih
                  · simp only [qsize_nil, qsize_cons, qsize_append]; omega
                  · simp only [qsize_nil, qsize_cons, qsize_append]; omega
                rw [e1]
                rw [ih n2 path rest q
                  (subNodeAssemble cfg path nm k
                    (runBQF cfg n2 (path ++ "/" ++ nm) ib [] (k + 1))).2
                  (by omega) (by omega)]

/-- With nothing left to run, a node's body-and-queue execution is
complete. -/
theorem bq_stop_nil (cfg : SuiteCfg) (p : String) (k : Nat) :
    runBodyAndQueue cfg p .stop [] k = (⟨[], false, []⟩, k) := rfl

/-- `runSubNode` unfolded: assembly around the body run. -/
theorem runSubNode_eq (cfg : SuiteCfg) (pp name : String) (inner : Body)
    (nid : Nat) :
    runSubNode cfg pp name inner nid =
      subNodeAssemble cfg pp name nid
        (runBodyAndQueue cfg (pp ++ "/" ++ name) inner [] (nid + 1)) := rfl

/-- One engine step of `runBodyAndQueue`: a queued parallel child runs as
a full sub-test node, then the rest of the queue. -/
theorem bq_stop_cons (cfg : SuiteCfg) (p nm : String) (ib : Body)
    (q2 : List (String × Body)) (k : Nat) :
    runBodyAndQueue cfg p .stop ((nm, ib) :: q2) k =
      (⟨(runSubNode cfg p nm ib k).1.trace ++
          (runBodyAndQueue cfg p .stop q2
            (runSubNode cfg p nm ib k).2).1.trace,
        (runSubNode cfg p nm ib k).1.failed ||
          (runBodyAndQueue cfg p .stop q2
            (runSubNode cfg p nm ib k).2).1.failed,
        (runSubNode cfg p nm ib k).1.nodes ++
          (runBodyAndQueue cfg p .stop q2
            (runSubNode cfg p nm ib k).2).1.nodes⟩,
        (runBodyAndQueue cfg p .stop q2 (runSubNode cfg p nm ib k).2).2) := by
  unfold runBodyAndQueue runSubNode
  rw [runBQF_fuel_irrel cfg (Body.size .stop + qsize ((nm, ib) :: q2))
    ((ib.size + 2 + qsize q2) + 1) p .stop ((nm, ib) :: q2) k
    le_rfl (by rw [qsize_cons]; simp only [Body.size]; omega)]
  simp only [runBQF]
  rw [runBQF_fuel_irrel cfg (ib.size + 2 + qsize q2)
    (Body.size ib + qsize ([] : List (String × Body))) (p ++ "/" ++ nm) ib
    [] (k + 1) (by simp only [qsize_nil]; omega)
    (by simp only [qsize_nil]; omega)]
  rw [runBQF_fuel_irrel cfg (ib.size + 2 + qsize q2)
    (Body.size .stop + qsize q2) p .stop q2 _
    (by simp only [Body.size]; omega) le_rfl]
  rfl

/-- One engine step of `runBodyAndQueue`: a body panic is recovered at
the node's boundary, and the already-queued parallel children still
run. -/
theorem bq_panicB (cfg : SuiteCfg) (p : String)
    (q : List (String × Body)) (k : Nat) :
    runBodyAndQueue cfg p .panicB q k =
      (⟨.panicked p :: (runBodyAndQueue cfg p .stop q k).1.trace, true,
        (runBodyAndQueue cfg p .stop q k).1.nodes⟩,
        (runBodyAndQueue cfg p .stop q k).2) := by
  unfold runBodyAndQueue
  rw [runBQF_fuel_irrel cfg (Body.size .panicB + qsize q)
    ((Body.size .stop + qsize q) + 1) p .panicB q k
    le_rfl (by simp only [Body.size]; omega)]
  simp only [runBQF]

/-- One engine step of `runBodyAndQueue`: a child that opted into
parallel execution is deferred to the back of the queue. -/
theorem bq_sub_par (cfg : SuiteCfg) (p nm : String) (ib rest : Body)
    (q : List (String × Body)) (k : Nat) :
    runBodyAndQueue cfg p (.sub nm true ib rest) q k =
      runBodyAndQueue cfg p rest (q ++ [(nm, ib)]) k := by
  unfold runBodyAndQueue
  rw [runBQF_fuel_irrel cfg (Body.size (.sub nm true ib rest) + qsize q)
    ((Body.size rest + qsize (q ++ [(nm, ib)])) + 1) p
    (.sub nm true ib rest) q k le_rfl
    (by rw [qsize_append, qsize_cons]; simp only [Body.size, qsize_nil]; omega)]
  simp only [runBQF]
  rfl

/-- One step of `runBQF` on a sequential sub-test request (the fuel in
successor form makes this definitional). -/
theorem runBQF_succ_sub_seq (cfg : SuiteCfg) (M : Nat) (p nm : String)
    (ib rest : Body) (q : List (String × Body)) (k : Nat) :
    runBQF cfg (M + 1) p (.sub nm false ib rest) q k =
      (⟨(subNodeAssemble cfg p nm k
            (runBQF cfg M (p ++ "/" ++ nm) ib [] (k + 1))).1.trace ++
          (runBQF cfg M p rest q
            (subNodeAssemble cfg p nm k
              (runBQF cfg M (p ++ "/" ++ nm) ib [] (k + 1))).2).1.trace,
        (subNodeAssemble cfg p nm k
            (runBQF cfg M (p ++ "/" ++ nm) ib [] (k + 1))).1.failed ||
          (runBQF cfg M p rest q
            (subNodeAssemble cfg p nm k
              (runBQF cfg M (p ++ "/" ++ nm) ib [] (k + 1))).2).1.failed,
        (subNodeAssemble cfg p nm k
            (runBQF cfg M (p ++ "/" ++ nm) ib [] (k + 1))).1.nodes ++
          (runBQF cfg M p rest q
            (subNodeAssemble cfg p nm k
              (runBQF cfg M (p ++ "/" ++ nm) ib [] (k + 1))).2).1.nodes⟩,
        (runBQF cfg M p rest q
          (subNodeAssemble cfg p nm k
            (runBQF cfg M (p ++ "/" ++ nm) ib [] (k + 1))).2).2) := rfl

/-- One engine step of `runBodyAndQueue`: a sequential child runs inline
as a full sub-test node, then the rest of the body. -/
theorem bq_sub_seq (cfg : SuiteCfg) (p nm : String) (ib rest : Body)
    (q : List (String × Body)) (k : Nat) :
    runBodyAndQueue cfg p (.sub nm false ib rest) q k =
      (⟨(runSubNode cfg p nm ib k).1.trace ++
          (runBodyAndQueue cfg p rest q
            (runSubNode cfg p nm ib k).2).1.trace,
        (runSubNode cfg p nm ib k).1.failed ||
          (runBodyAndQueue cfg p rest q
            (runSubNode cfg p nm ib k).2).1.failed,
        (runSubNode cfg p nm ib k).1.nodes ++
          (runBodyAndQueue cfg p rest q
            (runSubNode cfg p nm ib k).2).1.nodes⟩,
        (runBodyAndQueue cfg p rest q (runSubNode cfg p nm ib k).2).2) := by
  unfold runBodyAndQueue runSubNode
  rw [runBQF_fuel_irrel cfg (Body.size (.sub nm false ib rest) + qsize q)
    ((Body.size ib + Body.size rest + qsize q + 2) + 1) p
    (.sub nm false ib rest) q k le_rfl (by simp only [Body.size]; omega)]
  rw [runBQF_succ_sub_seq]
  rw [runBQF_fuel_irrel cfg (Body.size ib + Body.size rest + qsize q + 2)
    (Body.size ib + qsize ([] : List (String × Body))) (p ++ "/" ++ nm) ib
    [] (k + 1) (by simp only [qsize_nil]; omega)
    (by simp only [qsize_nil]; omega)]
  rw [runBQF_fuel_irrel cfg (Body.size ib + Body.size rest + qsize q + 2)
    (Body.size rest + qsize q) p rest q _ (by omega) le_rfl]
  rfl

/-- Trace events of one assembled sub-test node are sub-test-local
whenever its body's are. -/
theorem subNodeAssemble_subLocal (cfg : SuiteCfg) (pp name : String)
    (selfId : Nat) (bodyRes : NodeRes × Nat)
    (hb : ∀ e ∈ bodyRes.1.trace, e.isSubLocal = true) :
    ∀ e ∈ (subNodeAssemble cfg pp name selfId bodyRes).1.trace,
      e.isSubLocal = true := by
  intro e he
  simp only [subNodeAssemble, List.mem_append] at he
  rcases he with he | he
  · split at he
    · split at he
      · simp only [List.mem_cons, List.not_mem_nil, or_false] at he
        rcases he with rfl | rfl <;> rfl
      · simp only [List.mem_cons] at he
        rcases he with rfl | rfl | he
        · rfl
        · rfl
        · exact hb e he
    · simp only [List.mem_cons] at he
      rcases he with rfl | he
      · rfl
      · exact hb e he
  · rcases hookTrace_mem he with rfl | rfl <;> rfl

/-- Allocation discipline of one assembled sub-test node. -/
theorem subNodeAssemble_alloc (cfg : SuiteCfg) (pp name : String)
    (selfId : Nat) (bodyRes : NodeRes × Nat)
    (h1 : selfId + 1 ≤ bodyRes.2)
    (h2 : ∀ nd ∈ bodyRes.1.nodes,
      selfId + 1 ≤ nd.selfId ∧ nd.selfId < bodyRes.2)
    (h3 : bodyRes.1.nodes.Pairwise (fun a c => a.selfId < c.selfId)) :
    selfId ≤ (subNodeAssemble cfg pp name selfId bodyRes).2 ∧
    (∀ nd ∈ (subNodeAssemble cfg pp name selfId bodyRes).1.nodes,
        selfId ≤ nd.selfId ∧
        nd.selfId < (subNodeAssemble cfg pp name selfId bodyRes).2) ∧
    (subNodeAssemble cfg pp name selfId bodyRes).1.nodes.Pairwise
      (fun a c => a.selfId < c.selfId) := by
  simp only [subNodeAssemble]
  split
  · split
    · simp
    · refine ⟨by dsimp only; omega, ?_, ?_⟩
      · intro nd hnd
        simp only [List.mem_cons] at hnd
        rcases hnd with rfl | hnd
        · dsimp only; omega
        · have := h2 nd hnd; dsimp only; omega
      · refine List.pairwise_cons.mpr ⟨?_, h3⟩
        intro nd hnd
        have := h2 nd hnd
        dsimp only
        omega
  · refine ⟨by dsimp only; omega, ?_, ?_⟩
    · intro nd hnd
      simp only [List.mem_cons] at hnd
      rcases hnd with rfl | hnd
      · dsimp only; omega
      · have := h2 nd hnd; dsimp only; omega
    · refine List.pairwise_cons.mpr ⟨?_, h3⟩
      intro nd hnd
      have := h2 nd hnd
      dsimp only
      omega

/-- Parent wiring of one assembled sub-test node. -/
theorem subNodeAssemble_parent (cfg : SuiteCfg) (pp name : String)
    (selfId : Nat) (bodyRes : NodeRes × Nat)
    (hb : ∀ nd ∈ bodyRes.1.nodes, childOf (pp ++ "/" ++ name) nd ∨
      ∃ pn ∈ bodyRes.1.nodes, childOf pn.path nd) :
    ∀ nd ∈ (subNodeAssemble cfg pp name selfId bodyRes).1.nodes,
      childOf pp nd ∨
      ∃ pn ∈ (subNodeAssemble cfg pp name selfId bodyRes).1.nodes,
        childOf pn.path nd := by
  intro nd hnd
  by_cases hc1 : cfg.hasSetupSubTest = true
  · by_cases hc2 : cfg.setupSubTestPanics (pp ++ "/" ++ name) = true
    · simp only [subNodeAssemble, hc1, hc2, if_true, List.mem_cons,
        List.not_mem_nil, or_false] at hnd
      subst hnd
      exact Or.inl ⟨name, rfl, rfl⟩
    · simp only [subNodeAssemble, hc1, hc2, if_true, if_false,
        Bool.false_eq_true, List.mem_cons] at hnd ⊢
      rcases hnd with rfl | hnd
      · exact Or.inl ⟨name, rfl, rfl⟩
      · rcases hb nd hnd with hc | ⟨pn, hpn, hcp⟩
        · exact Or.inr ⟨⟨pp ++ "/" ++ name, selfId, some pp⟩, Or.inl rfl, hc⟩
        · exact Or.inr ⟨pn, Or.inr hpn, hcp⟩
  · simp only [subNodeAssemble, hc1, if_false, Bool.false_eq_true,
      List.mem_cons] at hnd ⊢
    rcases hnd with rfl | hnd
    · exact Or.inl ⟨name, rfl, rfl⟩
    · rcases hb nd hnd with hc | ⟨pn, hpn, hcp⟩
      · exact Or.inr ⟨⟨pp ++ "/" ++ name, selfId, some pp⟩, Or.inl rfl, hc⟩
      · exact Or.inr ⟨pn, Or.inr hpn, hcp⟩

theorem bq_subLocal (cfg : SuiteCfg) :
    ∀ (p : String) (b : Body) (q : List (String × Body)) (k : Nat),
      ∀ e ∈ (runBodyAndQueue cfg p b q k).1.trace, e.isSubLocal = true := by
  suffices main : ∀ (N : Nat) (p : String) (b : Body)
      (q : List (String × Body)) (k : Nat), b.size + qsize q ≤ N →
      ∀ e ∈ (runBodyAndQueue cfg p b q k).1.trace, e.isSubLocal = true by
    intro p b q k
    exact main (b.size + qsize q) p b q k le_rfl
  intro N
  induction N with
  | zero =>
      intro p b q k h
      have := Body.size_pos b
      omega
  | succ n ih =>
      intro p b q k h e he
      cases b with
      | panicB =>
          rw [bq_panicB] at he
          rcases List.mem_cons.mp he with rfl | he2
          · rfl
          · refine ih p .stop q k ?_ e he2
            simp only [Body.size] at h ⊢
            omega
      | stop =>
          cases q with
          | nil =>
              rw [bq_stop_nil] at he
              simp at he
          | cons hd q2 =>
              obtain ⟨nm, ib⟩ := hd
              rw [qsize_cons] at h
              simp only [Body.size] at h
              rw [bq_stop_cons] at he
              rcases List.mem_append.mp he with he2 | he2
              · refine subNodeAssemble_subLocal cfg p nm k _ ?_ e he2
                intro x hx
                refine ih (p ++ "/" ++ nm) ib [] (k + 1) ?_ x hx
                simp only [qsize_nil]
                omega
              · refine ih p .stop q2 _ ?_ e he2
                simp only [Body.size]
                omega
      | sub nm par ib rest =>
          simp only [Body.size] at h
          by_cases hp : par = true
          · subst hp
            rw [bq_sub_par] at he
            refine ih p rest (q ++ [(nm, ib)]) k ?_ e he
            rw [qsize_append, qsize_cons]
            simp only [qsize_nil]
            omega
          · have hp2 : par = false := by
              cases par
              · rfl
              · exact absurd rfl hp
            subst hp2
            rw [bq_sub_seq] at he
            rcases List.mem_append.mp he with he2 | he2
            · refine subNodeAssemble_subLocal cfg p nm k _ ?_ e he2
              intro x hx
              refine ih (p ++ "/" ++ nm) ib [] (k + 1) ?_ x hx
              simp only [qsize_nil]
              omega
            · refine ih p rest q _ ?_ e he2
              omega

theorem subNode_subLocal (cfg : SuiteCfg) (pp name : String) (inner : Body)
    (k : Nat) :
    ∀ e ∈ (runSubNode cfg pp name inner k).1.trace, e.isSubLocal = true :=
  subNodeAssemble_subLocal cfg pp name k _
    (bq_subLocal cfg (pp ++ "/" ++ name) inner [] (k + 1))

theorem bq_alloc (cfg : SuiteCfg) :
    ∀ (p : String) (b : Body) (q : List (String × Body)) (k : Nat),
      k ≤ (runBodyAndQueue cfg p b q k).2 ∧
      (∀ nd ∈ (runBodyAndQueue cfg p b q k).1.nodes,
          k ≤ nd.selfId ∧ nd.selfId < (runBodyAndQueue cfg p b q k).2) ∧
      (runBodyAndQueue cfg p b q k).1.nodes.Pairwise
        (fun a c => a.selfId < c.selfId) := by
  suffices main : ∀ (N : Nat) (p : String) (b : Body)
      (q : List (String × Body)) (k : Nat), b.size + qsize q ≤ N →
      k ≤ (runBodyAndQueue cfg p b q k).2 ∧
      (∀ nd ∈ (runBodyAndQueue cfg p b q k).1.nodes,
          k ≤ nd.selfId ∧ nd.selfId < (runBodyAndQueue cfg p b q k).2) ∧
      (runBodyAndQueue cfg p b q k).1.nodes.Pairwise
        (fun a c => a.selfId < c.selfId) by
    intro p b q k
    exact main (b.size + qsize q) p b q k le_rfl
  intro N
  induction N with
  | zero =>
      intro p b q k h
      have := Body.size_pos b
      omega
  | succ n ih =>
      intro p b q k h
      cases b with
      | panicB =>
          rw [bq_panicB]
          have hm : Body.size Body.stop + qsize q ≤ n := by
            simp only [Body.size] at h ⊢
            omega
          obtain ⟨a1, a2, a3⟩ := ih p .stop q k hm
          exact ⟨a1, a2, a3⟩
      | stop =>
          cases q with
          | nil => rw [bq_stop_nil]; simp
          | cons hd q2 =>
              obtain ⟨nm, ib⟩ := hd
              rw [qsize_cons] at h
              simp only [Body.size] at h
              rw [bq_stop_cons]
              obtain ⟨b1, b2, b3⟩ := subNodeAssemble_alloc cfg p nm k
                (runBodyAndQueue cfg (p ++ "/" ++ nm) ib [] (k + 1))
                (ih (p ++ "/" ++ nm) ib [] (k + 1)
                  (by simp only [qsize_nil, qsize_cons, qsize_append]; omega)).1
                (ih (p ++ "/" ++ nm) ib [] (k + 1)
                  (by simp only [qsize_nil, qsize_cons, qsize_append]; omega)).2.1
                (ih (p ++ "/" ++ nm) ib [] (k + 1)
                  (by simp only [qsize_nil, qsize_cons, qsize_append]; omega)).2.2
              rw [← runSubNode_eq] at b1 b2 b3
              obtain ⟨c1, c2, c3⟩ := ih p .stop q2
                (runSubNode cfg p nm ib k).2 (by simp only [Body.size]; omega)
              refine ⟨by dsimp only; omega, ?_, ?_⟩
              · intro nd hnd
                dsimp only at hnd ⊢
                rcases List.mem_append.mp hnd with hnd | hnd
                · have := b2 nd hnd
                  have : k ≤ nd.selfId ∧ nd.selfId ≤ (runSubNode cfg p nm ib k).2 := by
                    constructor
                    · exact this.1
                    · omega
                  omega
                · have := c2 nd hnd
                  omega
              · dsimp only
                refine List.pairwise_append.mpr ⟨b3, c3, ?_⟩
                intro x hx y hy
                have := b2 x hx
                have := c2 y hy
                omega
      | sub nm par ib rest =>
          simp only [Body.size] at h
          by_cases hp : par = true
          · subst hp
            rw [bq_sub_par]
            refine ih p rest (q ++ [(nm, ib)]) k ?_
            rw [qsize_append, qsize_cons]
            simp only [qsize_nil]
            omega
          · have hp2 : par = false := by
              cases par
              · rfl
              · exact absurd rfl hp
            subst hp2
            rw [bq_sub_seq]
            obtain ⟨b1, b2, b3⟩ := subNodeAssemble_alloc cfg p nm k
              (runBodyAndQueue cfg (p ++ "/" ++ nm) ib [] (k + 1))
              (ih (p ++ "/" ++ nm) ib [] (k + 1)
                (by simp only [qsize_nil, qsize_cons, qsize_append]; omega)).1
              (ih (p ++ "/" ++ nm) ib [] (k + 1)
                (by simp only [qsize_nil, qsize_cons, qsize_append]; omega)).2.1
              (ih (p ++ "/" ++ nm) ib [] (k + 1)
                (by simp only [qsize_nil, qsize_cons, qsize_append]; omega)).2.2
            rw [← runSubNode_eq] at b1 b2 b3
            obtain ⟨c1, c2, c3⟩ := ih p rest q
              (runSubNode cfg p nm ib k).2 (by omega)
            refine ⟨by dsimp only; omega, ?_, ?_⟩
            · intro nd hnd
              dsimp only at hnd ⊢
              rcases List.mem_append.mp hnd with hnd | hnd
              · have := b2 nd hnd
                omega
              · have := c2 nd hnd
                omega
            · dsimp only
              refine List.pairwise_append.mpr ⟨b3, c3, ?_⟩
              intro x hx y hy
              have := b2 x hx
              have := c2 y hy
              omega

theorem subNode_alloc (cfg : SuiteCfg) (pp name : String) (inner : Body)
    (k : Nat) :
    k ≤ (runSubNode cfg pp name inner k).2 ∧
    (∀ nd ∈ (runSubNode cfg pp name inner k).1.nodes,
        k ≤ nd.selfId ∧ nd.selfId < (runSubNode cfg pp name inner k).2) ∧
    (runSubNode cfg pp name inner k).1.nodes.Pairwise
      (fun a c => a.selfId < c.selfId) :=
  subNodeAssemble_alloc cfg pp name k _
    (bq_alloc cfg (pp ++ "/" ++ name) inner [] (k + 1)).1
    (bq_alloc cfg (pp ++ "/" ++ name) inner [] (k + 1)).2.1
    (bq_alloc cfg (pp ++ "/" ++ name) inner [] (k + 1)).2.2

theorem bq_parent (cfg : SuiteCfg) :
    ∀ (p : String) (b : Body) (q : List (String × Body)) (k : Nat),
      ∀ nd ∈ (runBodyAndQueue cfg p b q k).1.nodes,
        childOf p nd ∨
        ∃ pn ∈ (runBodyAndQueue cfg p b q k).1.nodes, childOf pn.path nd := by
  suffices main : ∀ (N : Nat) (p : String) (b : Body)
      (q : List (String × Body)) (k : Nat), b.size + qsize q ≤ N →
      ∀ nd ∈ (runBodyAndQueue cfg p b q k).1.nodes,
        childOf p nd ∨
        ∃ pn ∈ (runBodyAndQueue cfg p b q k).1.nodes, childOf pn.path nd by
    intro p b q k
    exact main (b.size + qsize q) p b q k le_rfl
  intro N
  induction N with
  | zero =>
      intro p b q k h
      have := Body.size_pos b
      omega
  | succ n ih =>
      intro p b q k h nd hnd
      cases b with
      | panicB =>
          rw [bq_panicB] at hnd ⊢
          have hm : Body.size Body.stop + qsize q ≤ n := by
            simp only [Body.size] at h ⊢
            omega
          exact ih p .stop q k hm nd hnd
      | stop =>
          cases q with
          | nil =>
              rw [bq_stop_nil] at hnd
              simp at hnd
          | cons hd q2 =>
              obtain ⟨nm, ib⟩ := hd
              rw [qsize_cons] at h
              simp only [Body.size] at h
              rw [bq_stop_cons] at hnd ⊢
              dsimp only at hnd ⊢
              rcases List.mem_append.mp hnd with hnd | hnd
              · rcases subNodeAssemble_parent cfg p nm k _
                    (ih (p ++ "/" ++ nm) ib [] (k + 1)
                      (by simp only [qsize_nil, qsize_cons, qsize_append]; omega)) nd hnd with hc | ⟨pn, hpn, hcp⟩
                · exact Or.inl hc
                · exact Or.inr ⟨pn, List.mem_append.mpr (Or.inl hpn), hcp⟩
              · rcases ih p .stop q2 (runSubNode cfg p nm ib k).2
                    (by simp only [Body.size]; omega) nd hnd with
                  hc | ⟨pn, hpn, hcp⟩
                · exact Or.inl hc
                · exact Or.inr ⟨pn, List.mem_append.mpr (Or.inr hpn), hcp⟩
      | sub nm par ib rest =>
          simp only [Body.size] at h
          by_cases hp : par = true
          · subst hp
            rw [bq_sub_par] at hnd ⊢
            refine ih p rest (q ++ [(nm, ib)]) k ?_ nd hnd
            rw [qsize_append, qsize_cons]
            simp only [qsize_nil]
            omega
          · have hp2 : par = false := by
              cases par
              · rfl
              · exact absurd rfl hp
            subst hp2
            rw [bq_sub_seq] at hnd ⊢
            dsimp only at hnd ⊢
            rcases List.mem_append.mp hnd with hnd | hnd
            · rcases subNodeAssemble_parent cfg p nm k _
                  (ih (p ++ "/" ++ nm) ib [] (k + 1)
                    (by simp only [qsize_nil, qsize_cons, qsize_append]; omega)) nd hnd with hc | ⟨pn, hpn, hcp⟩
              · exact Or.inl hc
              · exact Or.inr ⟨pn, List.mem_append.mpr (Or.inl hpn), hcp⟩
            · rcases ih p rest q (runSubNode cfg p nm ib k).2
                  (by omega) nd hnd with hc | ⟨pn, hpn, hcp⟩
              · exact Or.inl hc
              · exact Or.inr ⟨pn, List.mem_append.mpr (Or.inr hpn), hcp⟩


theorem testNode_not_suiteLevel (cfg : SuiteCfg) (rn : String) (m : MethodSpec)
    (k : Nat) :
    ∀ e ∈ (runTestNode cfg rn m k).1.trace, e.isSuiteLevel = false := by
  intro e he
  have hb := bq_subLocal cfg (rn ++ "/" ++ m.name) m.body [] (k + 1)
  simp only [runTestNode, List.mem_append] at he
  rcases he with (he | he) | he
  · split at he
    · simp only [List.mem_cons, List.not_mem_nil, or_false] at he
      rcases he with rfl | rfl <;> rfl
    · split at he
      · rw [List.mem_append] at he
        rcases he with he | he
        · rcases hookTrace_mem he with rfl | rfl <;> rfl
        · simp only [List.mem_cons, List.not_mem_nil, or_false] at he
          rcases he with rfl | rfl <;> rfl
      · rw [List.mem_append] at he
        rcases he with he | he
        · rw [List.mem_append] at he
          rcases he with he | he <;>
            (rcases hookTrace_mem he with rfl | rfl <;> rfl)
        · rcases List.mem_cons.mp he with rfl | he
          · rfl
          · exact subLocal_not_suiteLevel e (hb e he)
  · rcases hookTrace_mem he with rfl | rfl <;> rfl
  · rcases hookTrace_mem he with rfl | rfl <;> rfl

theorem testNode_alloc (cfg : SuiteCfg) (rn : String) (m : MethodSpec)
    (k : Nat) :
    k ≤ (runTestNode cfg rn m k).2 ∧
    (∀ nd ∈ (runTestNode cfg rn m k).1.nodes,
        k ≤ nd.selfId ∧ nd.selfId < (runTestNode cfg rn m k).2) ∧
    (runTestNode cfg rn m k).1.nodes.Pairwise
      (fun a c => a.selfId < c.selfId) := by
  obtain ⟨ih1, ih2, ih3⟩ :=
    bq_alloc cfg (rn ++ "/" ++ m.name) m.body [] (k + 1)
  simp only [runTestNode]
  split
  · refine ⟨by dsimp only; omega, ?_, by simp⟩
    intro nd hnd
    simp only [List.mem_cons, List.not_mem_nil, or_false] at hnd
    subst hnd
    dsimp only
    omega
  · split
    · refine ⟨by dsimp only; omega, ?_, by simp⟩
      intro nd hnd
      simp only [List.mem_cons, List.not_mem_nil, or_false] at hnd
      subst hnd
      dsimp only
      omega
    · refine ⟨by dsimp only; omega, ?_, ?_⟩
      · intro nd hnd
        simp only [List.mem_cons] at hnd
        rcases hnd with rfl | hnd
        · dsimp only; omega
        · have := ih2 nd hnd; dsimp only; omega
      · refine List.pairwise_cons.mpr ⟨?_, ih3⟩
        intro nd hnd
        have := ih2 nd hnd
        dsimp only
        omega

theorem testNode_parent (cfg : SuiteCfg) (rn : String) (m : MethodSpec)
    (k : Nat) :
    ∀ nd ∈ (runTestNode cfg rn m k).1.nodes,
      childOf rn nd ∨
      ∃ pn ∈ (runTestNode cfg rn m k).1.nodes, childOf pn.path nd := by
  intro nd hnd
  have hp := bq_parent cfg (rn ++ "/" ++ m.name) m.body [] (k + 1)
  by_cases h1 : (cfg.hasSetupTest && cfg.setupTestPanics (rn ++ "/" ++ m.name)) = true
  · simp only [runTestNode, h1, if_true, List.mem_cons, List.not_mem_nil,
      or_false] at hnd ⊢
    subst hnd
    exact Or.inl ⟨m.name, rfl, rfl⟩
  · by_cases h2 : (cfg.hasBeforeTest && cfg.beforeTestPanics (rn ++ "/" ++ m.name)) = true
    · simp only [runTestNode, h1, h2, if_true, if_false, Bool.false_eq_true,
        List.mem_cons, List.not_mem_nil, or_false] at hnd ⊢
      subst hnd
      exact Or.inl ⟨m.name, rfl, rfl⟩
    · simp only [runTestNode, h1, h2, if_false, Bool.false_eq_true,
        List.mem_cons] at hnd ⊢
      rcases hnd with rfl | hnd
      · exact Or.inl ⟨m.name, rfl, rfl⟩
      · rcases hp nd hnd with hc | ⟨pn, hpn, hcp⟩
        · exact Or.inr ⟨⟨rn ++ "/" ++ m.name, k, some rn⟩, Or.inl rfl, hc⟩
        · exact Or.inr ⟨pn, Or.inr hpn, hcp⟩

/-- The fresh suite instance record of a test node heads its node list. -/
theorem testNode_nodes_head (cfg : SuiteCfg) (rn : String) (m : MethodSpec)
    (k : Nat) :
    (⟨rn ++ "/" ++ m.name, k, some rn⟩ : NodeInfo) ∈
      (runTestNode cfg rn m k).1.nodes := by
  simp only [runTestNode]
  split
  · exact List.mem_cons_self _ _
  · split
    · exact List.mem_cons_self _ _
    · exact List.mem_cons_self _ _

theorem statsStart_nid (st : SState) (n : String) :
    (statsStart st n).nid = st.nid := by
  unfold statsStart
  cases st.si <;> rfl

theorem statsEnd_nid (st : SState) (n : String) (b : Bool) :
    (statsEnd st n b).nid = st.nid := by
  unfold statsEnd
  cases st.si <;> rfl

theorem statsStart_si_isSome (st : SState) (n : String) :
    (statsStart st n).si.isSome = st.si.isSome := by
  obtain ⟨a, b, si⟩ := st
  unfold statsStart
  cases si <;> rfl

theorem statsEnd_si_isSome (st : SState) (n : String) (b : Bool) :
    (statsEnd st n b).si.isSome = st.si.isSome := by
  obtain ⟨a, c, si⟩ := st
  unfold statsEnd
  cases si <;> rfl

theorem runTestNodeStats_fst (cfg : SuiteCfg) (rn : String) (m : MethodSpec)
    (st : SState) :
    (runTestNodeStats cfg rn m st).1 = (runTestNode cfg rn m st.nid).1 := by
  simp only [runTestNodeStats]
  rw [statsStart_nid]

theorem runTestNodeStats_nid (cfg : SuiteCfg) (rn : String) (m : MethodSpec)
    (st : SState) :
    (runTestNodeStats cfg rn m st).2.nid = (runTestNode cfg rn m st.nid).2 := by
  simp only [runTestNodeStats]
  rw [statsEnd_nid]
  dsimp only
  rw [statsStart_nid]

theorem runTestNodeStats_si_isSome (cfg : SuiteCfg) (rn : String)
    (m : MethodSpec) (st : SState) :
    (runTestNodeStats cfg rn m st).2.si.isSome = st.si.isSome := by
  simp only [runTestNodeStats]
  rw [statsEnd_si_isSome, statsStart_si_isSome]

theorem exec_si_isSome (cfg : SuiteCfg) (rn : String) :
    ∀ (ms : List MethodSpec) (st : SState),
      (execTests cfg rn ms st).state.si.isSome = st.si.isSome := by
  intro ms
  induction ms with
  | nil => intro st; rfl
  | cons m ms ih =>
      intro st
      simp only [execTests]
      rw [ih, runTestNodeStats_si_isSome]

theorem exec_not_suiteLevel (cfg : SuiteCfg) (rn : String) :
    ∀ (ms : List MethodSpec) (st : SState),
      ∀ e ∈ (execTests cfg rn ms st).trace, e.isSuiteLevel = false := by
  intro ms
  induction ms with
  | nil => intro st e he; simp [execTests] at he
  | cons m ms ih =>
      intro st e he
      simp only [execTests, List.mem_append] at he
      rcases he with he | he
      · rw [runTestNodeStats_fst] at he
        exact testNode_not_suiteLevel cfg rn m st.nid e he
      · exact ih _ e he

theorem exec_alloc (cfg : SuiteCfg) (rn : String) :
    ∀ (ms : List MethodSpec) (st : SState),
      st.nid ≤ (execTests cfg rn ms st).state.nid ∧
      (∀ nd ∈ (execTests cfg rn ms st).nodes,
          st.nid ≤ nd.selfId ∧ nd.selfId < (execTests cfg rn ms st).state.nid) ∧
      (execTests cfg rn ms st).nodes.Pairwise
        (fun a c => a.selfId < c.selfId) := by
  intro ms
  induction ms with
  | nil =>
      intro st
      refine ⟨le_rfl, ?_, by simp [execTests]⟩
      intro nd hnd
      simp [execTests] at hnd
  | cons m ms ih =>
      intro st
      obtain ⟨t1, t2, t3⟩ := testNode_alloc cfg rn m st.nid
      obtain ⟨e1, e2, e3⟩ := ih (runTestNodeStats cfg rn m st).2
      have hnid := runTestNodeStats_nid cfg rn m st
      simp only [execTests]
      rw [runTestNodeStats_fst]
      refine ⟨by omega, ?_, ?_⟩
      · intro nd hnd
        simp only [List.mem_append] at hnd
        rcases hnd with hnd | hnd
        · have := t2 nd hnd; omega
        · have := e2 nd hnd; omega
      · refine List.pairwise_append.mpr ⟨t3, e3, ?_⟩
        intro x hx y hy
        have := t2 x hx
        have := e2 y hy
        omega

theorem exec_parent (cfg : SuiteCfg) (rn : String) :
    ∀ (ms : List MethodSpec) (st : SState),
      ∀ nd ∈ (execTests cfg rn ms st).nodes,
        childOf rn nd ∨
        ∃ pn ∈ (execTests cfg rn ms st).nodes, childOf pn.path nd := by
  intro ms
  induction ms with
  | nil => intro st nd hnd; simp [execTests] at hnd
  | cons m ms ih =>
      intro st nd hnd
      simp only [execTests, List.mem_append] at hnd ⊢
      rw [runTestNodeStats_fst] at hnd ⊢
      rcases hnd with hnd | hnd
      · rcases testNode_parent cfg rn m st.nid nd hnd with hc | ⟨pn, hpn, hcp⟩
        · exact Or.inl hc
        · exact Or.inr ⟨pn, Or.inl hpn, hcp⟩
      · rcases ih _ nd hnd with hc | ⟨pn, hpn, hcp⟩
        · exact Or.inl hc
        · exact Or.inr ⟨pn, Or.inr hpn, hcp⟩

theorem exec_split (cfg : SuiteCfg) (rn : String) :
    ∀ (ms : List MethodSpec) (st : SState) (m : MethodSpec), m ∈ ms →
      ∃ pre post k,
        (execTests cfg rn ms st).trace =
          pre ++ (runTestNode cfg rn m k).1.trace ++ post := by
  intro ms
  induction ms with
  | nil => intro st m hm; simp at hm
  | cons m0 ms ih =>
      intro st m hm
      rcases List.mem_cons.mp hm with rfl | hm
      · refine ⟨[], (execTests cfg rn ms (runTestNodeStats cfg rn m st).2).trace,
          st.nid, ?_⟩
        simp only [execTests]
        rw [runTestNodeStats_fst]
        simp
      · obtain ⟨pre, post, k, hk⟩ := ih (runTestNodeStats cfg rn m0 st).2 m hm
        refine ⟨(runTestNodeStats cfg rn m0 st).1.trace ++ pre, post, k, ?_⟩
        simp only [execTests]
        rw [hk]
        simp

theorem exec_nodeMem (cfg : SuiteCfg) (rn : String) :
    ∀ (ms : List MethodSpec) (st : SState) (m : MethodSpec), m ∈ ms →
      ∃ k, (⟨rn ++ "/" ++ m.name, k, some rn⟩ : NodeInfo) ∈
        (execTests cfg rn ms st).nodes := by
  intro ms
  induction ms with
  | nil => intro st m hm; simp at hm
  | cons m0 ms ih =>
      intro st m hm
      rcases List.mem_cons.mp hm with rfl | hm
      · refine ⟨st.nid, ?_⟩
        simp only [execTests, List.mem_append]
        rw [runTestNodeStats_fst]
        exact Or.inl (testNode_nodes_head cfg rn m st.nid)
      · obtain ⟨k, hk⟩ := ih (runTestNodeStats cfg rn m0 st).2 m hm
        refine ⟨k, ?_⟩
        simp only [execTests, List.mem_append]
        exact Or.inr hk

/-! ## Suite-level decomposition lemmas -/

theorem suiteRun_ok (cfg : SuiteCfg) (rn : String) (mF xF : FlagVal)
    (sel : List MethodSpec)
    (hsel : selectMethods mF xF cfg.methods = .ok sel) (hne : sel ≠ [])
    (hnp : (cfg.hasSetupSuite && cfg.setupSuitePanics) = false) :
    suiteRun cfg rn mF xF = .ok
      { trace := hookTrace cfg.hasSetupSuite false .setupSuite rn ++
          (execTests cfg rn (orderedTests sel) (initSState cfg)).trace ++
          hookTrace cfg.hasTearDownSuite cfg.tearDownSuitePanics
            .tearDownSuite rn ++
          hookTrace cfg.hasStats cfg.handleStatsPanics .handleStats rn
        failed := (execTests cfg rn (orderedTests sel) (initSState cfg)).failed
          || (cfg.hasTearDownSuite && cfg.tearDownSuitePanics)
          || (cfg.hasStats && cfg.handleStatsPanics)
        delivered :=
          (execTests cfg rn (orderedTests sel) (initSState cfg)).state.si.map
            (fun s => { s with
              End := (execTests cfg rn (orderedTests sel) (initSState cfg)).state.clock })
        nodes := ⟨rn, 0, none⟩ ::
          (execTests cfg rn (orderedTests sel) (initSState cfg)).nodes } := by
  have hie : sel.isEmpty = false := by
    cases sel with
    | nil => exact absurd rfl hne
    | cons a l => rfl
  simp only [suiteRun, hsel, hie, hnp, Bool.false_eq_true, if_false]

theorem suiteRun_setupSuitePanic (cfg : SuiteCfg) (rn : String)
    (mF xF : FlagVal) (sel : List MethodSpec)
    (hsel : selectMethods mF xF cfg.methods = .ok sel) (hne : sel ≠ [])
    (hp : (cfg.hasSetupSuite && cfg.setupSuitePanics) = true) :
    suiteRun cfg rn mF xF = .ok
      { trace := [.setupSuite, .panicked rn] ++
          hookTrace cfg.hasTearDownSuite cfg.tearDownSuitePanics
            .tearDownSuite rn ++
          hookTrace cfg.hasStats cfg.handleStatsPanics .handleStats rn
        failed := true
        delivered := (initSState cfg).si.map
          (fun s => { s with End := (initSState cfg).clock })
        nodes := [⟨rn, 0, none⟩] } := by
  have hie : sel.isEmpty = false := by
    cases sel with
    | nil => exact absurd rfl hne
    | cons a l => rfl
  simp only [suiteRun, hsel, hie, hp, Bool.false_eq_true, if_false, if_true]
  simp

/-! ## Claim theorems -/

/-- C1 (counterexample): with include `"^TestA"` and exclude `"Skip$"`
both supplied, `methodFilter` selects `TestA2Skip` (the exclude filter is
never applied once the include flag is set), the spec-claimed
include-then-exclude selection rejects it, and the selected run set over
`TestA1, TestA2Skip, TestB1` is `[TestA1, TestA2Skip]`, not `{TestA1}`. -/
theorem c1_counterexample :
    methodFilter inclTestA exclSkip "TestA2Skip" = .ok true ∧
    includeThenExclude inclTestA exclSkip "TestA2Skip" = false ∧
    (selectMethods inclTestA exclSkip exampleMethods).map
      (List.map MethodSpec.name) = .ok ["TestA1", "TestA2Skip"] :=
  ⟨by decide, by decide, by decide⟩

/-- C1 (amended): for every method name, with valid flags, the run-set
selection keeps the name iff it starts with `Test` and then: a non-empty
include pattern decides alone (the exclude pattern is ignored); only with
the include pattern unset does a non-empty exclude pattern drop matching
names. In particular, over `TestA1, TestA2Skip, TestB1` with include
`"^TestA"` and exclude `"Skip$"`, the selected run set is exactly
`[TestA1, TestA2Skip]`, in declaration order. -/
theorem c1_amended_selection :
    (∀ (mF xF : FlagVal) (name : String), mF ≠ .invalid →
      (mF = .empty → xF ≠ .invalid) →
      methodFilter mF xF name = .ok (codeSelects mF xF name)) ∧
    (selectMethods inclTestA exclSkip exampleMethods).map
      (List.map MethodSpec.name) = .ok ["TestA1", "TestA2Skip"] := by
  constructor
  · intro mF xF name hm hme
    by_cases hpre : testNamePattern.matchString name = true
    · cases mF with
      | invalid => exact absurd rfl hm
      | empty =>
          cases xF with
          | invalid => exact absurd rfl (hme rfl)
          | empty =>
              simp [methodFilter, codeSelects, hpre, FlagVal.matchesB]
          | pat p =>
              simp [methodFilter, codeSelects, hpre, FlagVal.matchString,
                FlagVal.matchesB]
      | pat p =>
          cases xF <;>
            simp [methodFilter, codeSelects, hpre, FlagVal.matchString,
              FlagVal.matchesB]
    · have hpre2 : testNamePattern.matchString name = false := by
        cases h : testNamePattern.matchString name
        · rfl
        · exact absurd h hpre
      simp [methodFilter, codeSelects, hpre2]
  · decide

/-- C1 (witness): the amended characterization evaluated at the example:
include `"^TestA"`, exclude `"Skip$"`, name `TestA2Skip` — selected. -/
theorem c1_amended_selection_witness :
    (inclTestA ≠ .invalid) ∧
    methodFilter inclTestA exclSkip "TestA2Skip" =
      .ok (codeSelects inclTestA exclSkip "TestA2Skip") :=
  ⟨by decide, c1_amended_selection.1 inclTestA exclSkip "TestA2Skip"
    (by decide) (fun h => by cases h)⟩

/-- C10: whenever the include flag is non-empty, `methodFilter` ignores
the exclude flag entirely: the result does not depend on the exclude flag
at all; a name matching both patterns is still selected; and an exclude
string that would not even compile produces no error. -/
theorem c10_exclude_ignored_when_include_set :
    (∀ (mF xF xF2 : FlagVal) (name : String), mF ≠ .empty →
      methodFilter mF xF name = methodFilter mF xF2 name) ∧
    (∀ (p q : GoPattern) (name : String),
      testNamePattern.matchString name = true →
      p.matchString name = true →
      methodFilter (.pat p) (.pat q) name = .ok true) ∧
    (∀ (p : GoPattern) (name : String),
      testNamePattern.matchString name = true →
      p.matchString name = true →
      methodFilter (.pat p) .invalid name = .ok true) := by
  refine ⟨?_, ?_, ?_⟩
  · intro mF xF xF2 name hm
    simp [methodFilter, hm]
  · intro p q name h1 h2
    simp [methodFilter, h1, h2, FlagVal.matchString]
  · intro p name h1 h2
    simp [methodFilter, h1, h2, FlagVal.matchString]

/-- C10 (witness): `TestA2Skip` matches both `"^TestA"` and `"Skip$"` and
is still selected; with an invalid exclude string the filter still
answers without an error. -/
theorem c10_witness :
    ((inclTestA ≠ FlagVal.empty) ∧
      methodFilter inclTestA exclSkip "TestA2Skip" =
        methodFilter inclTestA .invalid "TestA2Skip") ∧
    (testNamePattern.matchString "TestA2Skip" = true ∧
      GoPattern.matchString ⟨true, false, strRe "TestA"⟩ "TestA2Skip" = true ∧
      methodFilter (.pat ⟨true, false, strRe "TestA"⟩)
        (.pat ⟨false, true, strRe "Skip"⟩) "TestA2Skip" = .ok true) ∧
    methodFilter (.pat ⟨true, false, strRe "TestA"⟩) .invalid "TestA2Skip" =
      .ok true :=
  ⟨⟨by decide,
      c10_exclude_ignored_when_include_set.1 inclTestA exclSkip .invalid
        "TestA2Skip" (by decide)⟩,
    ⟨by decide, by decide,
      c10_exclude_ignored_when_include_set.2.1 ⟨true, false, strRe "TestA"⟩
        ⟨false, true, strRe "Skip"⟩ "TestA2Skip" (by decide) (by decide)⟩,
    c10_exclude_ignored_when_include_set.2.2 ⟨true, false, strRe "TestA"⟩
      "TestA2Skip" (by decide) (by decide)⟩

/-- C2: a suite whose filtered run set is empty logs the warning and
returns successfully, having created only the root context node: no
lifecycle hook event, no statistics record, no test node. -/
theorem c2_empty_runset (cfg : SuiteCfg) (rn : String) (mF xF : FlagVal)
    (h : selectMethods mF xF cfg.methods = .ok []) :
    suiteRun cfg rn mF xF =
      .ok ⟨[.warnNoTests], false, none, [⟨rn, 0, none⟩]⟩ := by
  simp [suiteRun, h]

/-- C2 (witness): the `SuiteSetupSkipTester`-style suite, whose only
method is `NonTestMethod`, warns and succeeds without any hook firing. -/
theorem c2_empty_runset_witness :
    selectMethods .empty .empty noTestsCfg.methods = .ok [] ∧
    suiteRun noTestsCfg "Root" .empty .empty =
      .ok ⟨[.warnNoTests], false, none, [⟨"Root", 0, none⟩]⟩ :=
  ⟨by decide, c2_empty_runset noTestsCfg "Root" .empty .empty (by decide)⟩

/-- C6 (counterexample): two successive calls to `setP` on the same node,
the first passing nil (exactly what `Run` passes for the root node), panic
neither time — the second call silently stores a new parent, so "a second
call to the same setter panics" fails as stated. -/
theorem c6_counterexample :
    (⟨none, none, none, none⟩ : SuitePtrs).setP none =
      .ok ⟨none, none, none, none⟩ ∧
    ((⟨none, none, none, none⟩ : SuitePtrs).setP none).bind
      (fun s => s.setP (some 5)) = .ok ⟨none, none, none, some 5⟩ :=
  ⟨by decide, by decide⟩

/-- C6 (amended): each setter panics — with its diagnostic message —
exactly when the field it guards currently holds a non-nil value;
otherwise it stores its argument. Hence a second call panics whenever the
first call stored a non-nil value (as every call in `Run`/`Suite.Run` does
except the root's `setP(nil)`), and never silently overwrites a non-nil
value. -/
theorem c6_set_at_most_once :
    ∀ (s : SuitePtrs) (v : Option Nat),
      ((s.testingT ≠ none →
          s.setT v = .error "Suite.testingT already set, can't overwrite") ∧
        (s.testingT = none → s.setT v = .ok { s with testingT := v })) ∧
      ((s.g ≠ none →
          s.setG v = .error "Suite.g already set, can't overwrite") ∧
        (s.g = none → s.setG v = .ok { s with g := v })) ∧
      ((s.suite ≠ none →
          s.setS v = .error "Suite.suite already set, can't overwrite") ∧
        (s.suite = none → s.setS v = .ok { s with suite := v })) ∧
      ((s.parent ≠ none →
          s.setP v = .error "Suite.parent already set, can't overwrite") ∧
        (s.parent = none → s.setP v = .ok { s with parent := v })) := by
  intro s v
  refine ⟨⟨?_, ?_⟩, ⟨?_, ?_⟩, ⟨?_, ?_⟩, ⟨?_, ?_⟩⟩ <;> intro h <;>
    simp [SuitePtrs.setT, SuitePtrs.setG, SuitePtrs.setS, SuitePtrs.setP, h]

/-- C6 (witness): on a node whose engine handle is already set, a second
`setT` panics with the diagnostic message. -/
theorem c6_set_at_most_once_witness :
    ((⟨some 1, none, none, none⟩ : SuitePtrs).testingT ≠ none) ∧
    (⟨some 1, none, none, none⟩ : SuitePtrs).setT (some 2) =
      .error "Suite.testingT already set, can't overwrite" :=
  ⟨by decide,
    (c6_set_at_most_once ⟨some 1, none, none, none⟩ (some 2)).1.1 (by decide)⟩

theorem mem_orderedTests {sel : List MethodSpec} {m : MethodSpec}
    (h : m ∈ sel) : m ∈ orderedTests sel := by
  unfold orderedTests
  rw [List.mem_append]
  by_cases hp : m.par = true
  · exact Or.inr (List.mem_filter.mpr ⟨h, hp⟩)
  · refine Or.inl (List.mem_filter.mpr ⟨h, ?_⟩)
    simp [hp]

theorem hookTrace_not_mem {c d : Bool} {ev : Ev} {p : String} {e : Ev}
    (h1 : e ≠ ev) (h2 : e ≠ .panicked p) : e ∉ hookTrace c d ev p := by
  intro hc
  rcases hookTrace_mem hc with rfl | rfl
  · exact h1 rfl
  · exact h2 rfl

/-- With all four per-test hooks implemented and none of them panicking,
one test node's trace is exactly `SetupTest`, `BeforeTest`, the body call,
the body's whole subtree, then — as deferred cleanups in
reverse-registration order — `AfterTest` and `TearDownTest`. -/
theorem testNode_trace_noPanic (cfg : SuiteCfg) (rn : String)
    (m : MethodSpec) (k : Nat)
    (hst : cfg.hasSetupTest = true) (hbt : cfg.hasBeforeTest = true)
    (hat : cfg.hasAfterTest = true) (htdt : cfg.hasTearDownTest = true)
    (h1 : cfg.setupTestPanics (rn ++ "/" ++ m.name) = false)
    (h2 : cfg.beforeTestPanics (rn ++ "/" ++ m.name) = false)
    (h3 : cfg.afterTestPanics (rn ++ "/" ++ m.name) = false)
    (h4 : cfg.tearDownTestPanics (rn ++ "/" ++ m.name) = false) :
    (runTestNode cfg rn m k).1.trace =
      [.setupTest (rn ++ "/" ++ m.name), .beforeTest cfg.suiteName m.name,
        .callBody (rn ++ "/" ++ m.name)] ++
      (runBodyAndQueue cfg (rn ++ "/" ++ m.name) m.body [] (k + 1)).1.trace ++
      [.afterTest cfg.suiteName m.name,
        .tearDownTest (rn ++ "/" ++ m.name)] := by
  simp [runTestNode, hookTrace, hst, hbt, hat, htdt, h1, h2, h3, h4]

/-- C3: on a suite implementing all lifecycle hooks (statistics aside),
with no hook panicking, the run's trace is `SetupSuite`, then the tests,
then — exactly once, after every test's subtree across the whole suite —
`TearDownSuite`; and every selected test contributes the contiguous
segment `SetupTest`, `BeforeTest(suiteName, testName)`, the body, the
body's whole subtree (including its deferred parallel sub-tests), then the
deferred cleanups in reverse-registration order: `AfterTest(suiteName,
testName)` before `TearDownTest`. -/
theorem c3_lifecycle_ordering (cfg : SuiteCfg) (rn : String)
    (mF xF : FlagVal) (sel : List MethodSpec)
    (hsel : selectMethods mF xF cfg.methods = .ok sel) (hne : sel ≠ [])
    (hss : cfg.hasSetupSuite = true) (htds : cfg.hasTearDownSuite = true)
    (hst : cfg.hasSetupTest = true) (htdt : cfg.hasTearDownTest = true)
    (hbt : cfg.hasBeforeTest = true) (hat : cfg.hasAfterTest = true)
    (hstats : cfg.hasStats = false)
    (hp1 : cfg.setupSuitePanics = false)
    (hp2 : cfg.tearDownSuitePanics = false)
    (hp3 : ∀ p, cfg.setupTestPanics p = false)
    (hp4 : ∀ p, cfg.beforeTestPanics p = false)
    (hp5 : ∀ p, cfg.afterTestPanics p = false)
    (hp6 : ∀ p, cfg.tearDownTestPanics p = false) :
    ∃ rr mid, suiteRun cfg rn mF xF = .ok rr ∧
      rr.trace = .setupSuite :: (mid ++ [.tearDownSuite]) ∧
      mid.count .tearDownSuite = 0 ∧
      rr.trace.count .tearDownSuite = 1 ∧
      ∀ m ∈ sel, ∃ pre post k,
        mid = pre ++
          ([.setupTest (rn ++ "/" ++ m.name),
            .beforeTest cfg.suiteName m.name,
            .callBody (rn ++ "/" ++ m.name)] ++
            (runBodyAndQueue cfg (rn ++ "/" ++ m.name) m.body []
              (k + 1)).1.trace ++
            [.afterTest cfg.suiteName m.name,
              .tearDownTest (rn ++ "/" ++ m.name)]) ++ post := by
  have hnp : (cfg.hasSetupSuite && cfg.setupSuitePanics) = false := by
    simp [hss, hp1]
  have heq := suiteRun_ok cfg rn mF xF sel hsel hne hnp
  refine ⟨_, (execTests cfg rn (orderedTests sel) (initSState cfg)).trace,
    heq, ?_, ?_, ?_, ?_⟩
  · simp [hookTrace, hss, htds, hstats, hp2]
  · rw [List.count_eq_zero]
    intro hmem
    have := exec_not_suiteLevel cfg rn (orderedTests sel) (initSState cfg)
      Ev.tearDownSuite hmem
    simp [Ev.isSuiteLevel] at this
  · have hz : (execTests cfg rn (orderedTests sel)
        (initSState cfg)).trace.count Ev.tearDownSuite = 0 := by
      rw [List.count_eq_zero]
      intro hmem
      have := exec_not_suiteLevel cfg rn (orderedTests sel) (initSState cfg)
        Ev.tearDownSuite hmem
      simp [Ev.isSuiteLevel] at this
    simp [hookTrace, hss, htds, hstats, hp2, List.count_append, hz,
      List.count_cons]
  · intro m hm
    obtain ⟨pre, post, k, hk⟩ :=
      exec_split cfg rn (orderedTests sel) (initSState cfg) m
        (mem_orderedTests hm)
    refine ⟨pre, post, k, ?_⟩
    rw [hk, testNode_trace_noPanic cfg rn m k hst hbt hat htdt
      (hp3 _) (hp4 _) (hp5 _) (hp6 _)]

/-- C3 (witness): the ordering theorem evaluated on a suite of two
parallel tests, each spawning parallel sub-tests. -/
theorem c3_lifecycle_ordering_witness :
    (selectMethods .empty .empty parallelCfg.methods =
        .ok parallelCfg.methods ∧
      parallelCfg.methods ≠ [] ∧ parallelCfg.hasStats = false) ∧
    (∃ rr mid, suiteRun parallelCfg "Root" .empty .empty = .ok rr ∧
      rr.trace = .setupSuite :: (mid ++ [.tearDownSuite]) ∧
      mid.count .tearDownSuite = 0 ∧
      rr.trace.count .tearDownSuite = 1 ∧
      ∀ m ∈ parallelCfg.methods, ∃ pre post k,
        mid = pre ++
          ([.setupTest ("Root" ++ "/" ++ m.name),
            .beforeTest parallelCfg.suiteName m.name,
            .callBody ("Root" ++ "/" ++ m.name)] ++
            (runBodyAndQueue parallelCfg ("Root" ++ "/" ++ m.name) m.body []
              (k + 1)).1.trace ++
            [.afterTest parallelCfg.suiteName m.name,
              .tearDownTest ("Root" ++ "/" ++ m.name)]) ++ post) :=
  ⟨⟨rfl, by decide, rfl⟩,
    c3_lifecycle_ordering parallelCfg "Root" .empty .empty
      parallelCfg.methods rfl (by decide) rfl rfl rfl rfl rfl rfl rfl rfl rfl
      (fun _ => rfl) (fun _ => rfl) (fun _ => rfl) (fun _ => rfl)⟩

theorem hookTrace_self_mem {d : Bool} (ev : Ev) (p : String) :
    ev ∈ hookTrace true d ev p := by
  cases d <;> simp [hookTrace]

/-- A test node whose `SetupTest` panics emits `SetupTest`, the recovery
boundary, and then only the `TearDownTest` cleanup — `AfterTest` was never
registered, the body never ran. -/
theorem testNode_trace_setupPanic (cfg : SuiteCfg) (rn : String)
    (m : MethodSpec) (k : Nat)
    (h : (cfg.hasSetupTest && cfg.setupTestPanics (rn ++ "/" ++ m.name)) = true) :
    (runTestNode cfg rn m k).1.trace =
      [.setupTest (rn ++ "/" ++ m.name), .panicked (rn ++ "/" ++ m.name)] ++
      hookTrace cfg.hasTearDownTest
        (cfg.tearDownTestPanics (rn ++ "/" ++ m.name))
        (.tearDownTest (rn ++ "/" ++ m.name)) (rn ++ "/" ++ m.name) := by
  simp [runTestNode, h, hookTrace]

/-- C4: at each nesting level the teardown cleanup is registered before
the corresponding setup hook runs, so a panic inside `SetupSuite`,
`SetupTest` or `SetupSubTest` still triggers the matching `TearDownSuite`,
`TearDownTest` or `TearDownSubTest`. -/
theorem c4_teardown_survives_setup_panic :
    (∀ (cfg : SuiteCfg) (rn : String) (mF xF : FlagVal)
        (sel : List MethodSpec),
      selectMethods mF xF cfg.methods = .ok sel → sel ≠ [] →
      cfg.hasSetupSuite = true → cfg.setupSuitePanics = true →
      cfg.hasTearDownSuite = true →
      ∃ rr, suiteRun cfg rn mF xF = .ok rr ∧
        Ev.panicked rn ∈ rr.trace ∧ Ev.tearDownSuite ∈ rr.trace) ∧
    (∀ (cfg : SuiteCfg) (rn : String) (mF xF : FlagVal)
        (sel : List MethodSpec) (m : MethodSpec),
      selectMethods mF xF cfg.methods = .ok sel → m ∈ sel →
      (cfg.hasSetupSuite && cfg.setupSuitePanics) = false →
      cfg.hasSetupTest = true →
      cfg.setupTestPanics (rn ++ "/" ++ m.name) = true →
      cfg.hasTearDownTest = true →
      ∃ rr, suiteRun cfg rn mF xF = .ok rr ∧
        Ev.panicked (rn ++ "/" ++ m.name) ∈ rr.trace ∧
        Ev.tearDownTest (rn ++ "/" ++ m.name) ∈ rr.trace) ∧
    (∀ (cfg : SuiteCfg) (pp name : String) (inner : Body) (k : Nat),
      cfg.hasSetupSubTest = true →
      cfg.setupSubTestPanics (pp ++ "/" ++ name) = true →
      cfg.hasTearDownSubTest = true →
      Ev.panicked (pp ++ "/" ++ name) ∈
        (runSubNode cfg pp name inner k).1.trace ∧
      Ev.tearDownSubTest (pp ++ "/" ++ name) ∈
        (runSubNode cfg pp name inner k).1.trace) := by
  refine ⟨?_, ?_, ?_⟩
  · intro cfg rn mF xF sel hsel hne h1 h2 h3
    have hp : (cfg.hasSetupSuite && cfg.setupSuitePanics) = true := by
      simp [h1, h2]
    refine ⟨_, suiteRun_setupSuitePanic cfg rn mF xF sel hsel hne hp,
      ?_, ?_⟩
    · simp
    · simp only [List.append_assoc, List.mem_append]
      refine Or.inr (Or.inl ?_)
      rw [h3]
      exact hookTrace_self_mem _ _
  · intro cfg rn mF xF sel m hsel hm hnp h1 h2 h3
    have hne : sel ≠ [] := by
      intro hc
      rw [hc] at hm
      simp at hm
    refine ⟨_, suiteRun_ok cfg rn mF xF sel hsel hne hnp, ?_⟩
    obtain ⟨pre, post, k, hk⟩ :=
      exec_split cfg rn (orderedTests sel) (initSState cfg) m
        (mem_orderedTests hm)
    have hshape := testNode_trace_setupPanic cfg rn m k (by simp [h1, h2])
    constructor
    · simp only [List.mem_append]
      refine Or.inl (Or.inl (Or.inr ?_))
      rw [hk, hshape]
      simp
    · simp only [List.mem_append]
      refine Or.inl (Or.inl (Or.inr ?_))
      rw [hk, hshape]
      simp only [List.mem_append]
      refine Or.inl (Or.inr (Or.inr ?_))
      rw [h3]
      exact hookTrace_self_mem _ _
  · intro cfg pp name inner k h1 h2 h3
    constructor
    · simp [runSubNode, subNodeAssemble, h1, h2]
    · simp only [runSubNode, subNodeAssemble, h1, h2, if_true,
        List.mem_append]
      refine Or.inr ?_
      rw [h3]
      exact hookTrace_self_mem _ _

/-- C4 (witness): all three levels evaluated on concrete suites with a
panicking setup hook. -/
theorem c4_teardown_survives_setup_panic_witness :
    (selectMethods .empty .empty setupSuitePanicCfg.methods =
        .ok setupSuitePanicCfg.methods ∧
      (∃ rr, suiteRun setupSuitePanicCfg "Root" .empty .empty = .ok rr ∧
        Ev.panicked "Root" ∈ rr.trace ∧ Ev.tearDownSuite ∈ rr.trace)) ∧
    (setupTestPanicCfg.setupTestPanics ("Root" ++ "/" ++ "TestOne") = true ∧
      (∃ rr, suiteRun setupTestPanicCfg "Root" .empty .empty = .ok rr ∧
        Ev.panicked ("Root" ++ "/" ++ "TestOne") ∈ rr.trace ∧
        Ev.tearDownTest ("Root" ++ "/" ++ "TestOne") ∈ rr.trace)) ∧
    (setupSubPanicCfg.setupSubTestPanics
        ("Root/TestOne" ++ "/" ++ "sub1") = true ∧
      (Ev.panicked ("Root/TestOne" ++ "/" ++ "sub1") ∈
          (runSubNode setupSubPanicCfg "Root/TestOne" "sub1" .stop 7).1.trace ∧
        Ev.tearDownSubTest ("Root/TestOne" ++ "/" ++ "sub1") ∈
          (runSubNode setupSubPanicCfg "Root/TestOne" "sub1" .stop 7).1.trace)) :=
  ⟨⟨rfl, c4_teardown_survives_setup_panic.1 setupSuitePanicCfg "Root"
      .empty .empty setupSuitePanicCfg.methods rfl (by decide) rfl rfl rfl⟩,
    ⟨by decide, c4_teardown_survives_setup_panic.2.1 setupTestPanicCfg "Root"
      .empty .empty setupTestPanicCfg.methods ⟨"TestOne", false, .stop⟩ rfl
      (by decide) (by decide) rfl (by decide) rfl⟩,
    ⟨by decide, c4_teardown_survives_setup_panic.2.2 setupSubPanicCfg
      "Root/TestOne" "sub1" .stop 7 rfl (by decide) rfl⟩⟩

/-- C5: for each of the ten probed panic locations, the panic is recovered
at that node's boundary (the recovery event appears at that node's path),
the overall run outcome is failure, every teardown-class action registered
before the panic still fires, and — whenever the test loop ran at all —
the sibling test runs its full hook chain and is recorded as passed, the
probe alone being recorded as failed. -/
theorem c5_panic_recovered_at_node_boundary :
    ∀ loc : PanicLoc,
      suiteRun (probeCfg loc) "Root" .empty .empty =
        .ok (runOf (probeCfg loc) "Root") ∧
      Ev.panicked (locNodePath loc) ∈ (runOf (probeCfg loc) "Root").trace ∧
      (runOf (probeCfg loc) "Root").failed = true ∧
      (∀ ev ∈ locRemainingTeardowns loc,
        ev ∈ (runOf (probeCfg loc) "Root").trace) ∧
      ((runOf (probeCfg loc) "Root").delivered.bind
        (fun si => (si.TestStats.lookup "TestProbe").map
          (fun t => t.Passed)) = locProbePassed loc) ∧
      (locTestsRun loc = true →
        Ev.setupTest "Root/TestSibling" ∈ (runOf (probeCfg loc) "Root").trace ∧
        Ev.tearDownTest "Root/TestSibling" ∈
          (runOf (probeCfg loc) "Root").trace ∧
        (runOf (probeCfg loc) "Root").delivered.bind
          (fun si => (si.TestStats.lookup "TestSibling").map
            (fun t => t.Passed)) = some true) := by
  intro loc
  cases loc <;> decide


/-- C5 (witness): the body-panic probe instantiated: the test loop ran,
`TearDownSuite` was registered before the panic and indeed still fires, and
the sibling test runs its hooks. -/
theorem c5_boundary_witness :
    locTestsRun .inBody = true ∧
    Ev.tearDownSuite ∈ locRemainingTeardowns .inBody ∧
    Ev.tearDownSuite ∈ (runOf (probeCfg .inBody) "Root").trace ∧
    Ev.setupTest "Root/TestSibling" ∈ (runOf (probeCfg .inBody) "Root").trace := by
  have h := c5_panic_recovered_at_node_boundary .inBody
  exact ⟨by decide, by decide,
    h.2.2.2.1 Ev.tearDownSuite (by decide),
    (h.2.2.2.2.2 (by decide)).1⟩

theorem hookTrace_false (d : Bool) (ev : Ev) (p : String) :
    hookTrace false d ev p = [] := rfl

theorem hookTrace_count_ne {c d : Bool} {ev : Ev} {p : String} {e : Ev}
    (h1 : e ≠ ev) (h2 : e ≠ .panicked p) :
    (hookTrace c d ev p).count e = 0 :=
  List.count_eq_zero.mpr (hookTrace_not_mem h1 h2)

theorem hookTrace_count_self {d : Bool} {ev : Ev} {p : String}
    (h : ev ≠ .panicked p) : (hookTrace true d ev p).count ev = 1 := by
  cases d <;> simp [hookTrace, h]

theorem exec_count_handleStats (cfg : SuiteCfg) (rn : String)
    (ms : List MethodSpec) (st : SState) :
    (execTests cfg rn ms st).trace.count .handleStats = 0 :=
  List.count_eq_zero.mpr (fun hm => by
    have := exec_not_suiteLevel cfg rn ms st _ hm
    simp [Ev.isSuiteLevel] at this)

theorem opt_isSome_map (o : Option SuiteInformation)
    (f : SuiteInformation → SuiteInformation) :
    (o.map f).isSome = o.isSome := by
  cases o <;> rfl

theorem initSState_si_isSome (cfg : SuiteCfg) :
    (initSState cfg).si.isSome = cfg.hasStats := by
  cases h : cfg.hasStats <;> simp [initSState, h]

/-- C7: with a non-empty run set, a statistics record is delivered iff the
suite implements the statistics capability, `HandleStats` is invoked
exactly once, and — when the handler itself does not panic — that
invocation is the very last event of the whole run, after every test and
its descendants; in the two-test scenario where the first test panics and
the second passes, the delivered record has non-zero Start/End for both
tests, `Passed = false` for the panicking one, `Passed = true` for the
other, and overall `Passed()` is false. -/
theorem c7_stats_delivered_once :
    (∀ (cfg : SuiteCfg) (rn : String) (mF xF : FlagVal)
        (sel : List MethodSpec) (rr : RunResult),
      selectMethods mF xF cfg.methods = .ok sel → sel ≠ [] →
      suiteRun cfg rn mF xF = .ok rr →
      rr.delivered.isSome = cfg.hasStats ∧
      rr.trace.count .handleStats = (if cfg.hasStats then 1 else 0) ∧
      (cfg.hasStats = true → cfg.handleStatsPanics = false →
        ∃ pre, rr.trace = pre ++ [.handleStats])) ∧
    ((runOf statsScenarioCfg "Root").delivered.map
        SuiteInformation.Passed = some false ∧
      ((runOf statsScenarioCfg "Root").delivered.bind
          (fun si => si.TestStats.lookup "TestPanic")).map
        (fun t => (decide (t.Start ≠ 0), decide (t.End ≠ 0), t.Passed)) =
          some (true, true, false) ∧
      ((runOf statsScenarioCfg "Root").delivered.bind
          (fun si => si.TestStats.lookup "TestSomething")).map
        (fun t => (decide (t.Start ≠ 0), decide (t.End ≠ 0), t.Passed)) =
          some (true, true, true)) := by
  constructor
  · intro cfg rn mF xF sel rr hsel hne hrun
    by_cases hp : (cfg.hasSetupSuite && cfg.setupSuitePanics) = true
    · rw [suiteRun_setupSuitePanic cfg rn mF xF sel hsel hne hp] at hrun
      simp only [Except.ok.injEq] at hrun
      subst hrun
      refine ⟨?_, ?_, ?_⟩
      · dsimp only
        rw [opt_isSome_map, initSState_si_isSome]
      · dsimp only
        simp only [List.count_append]
        have h1 : ([Ev.setupSuite, Ev.panicked rn] : List Ev).count
            Ev.handleStats = 0 := by simp
        have h2 : (hookTrace cfg.hasTearDownSuite cfg.tearDownSuitePanics
            Ev.tearDownSuite rn).count Ev.handleStats = 0 :=
          hookTrace_count_ne (fun h => Ev.noConfusion h)
            (fun h => Ev.noConfusion h)
        rw [h1, h2]
        cases hst : cfg.hasStats
        · simp only [hst, hookTrace_false]
          simp
        · simp only [hst]
          have h3 : (hookTrace true cfg.handleStatsPanics Ev.handleStats
              rn).count Ev.handleStats = 1 :=
            hookTrace_count_self (fun h => Ev.noConfusion h)
          rw [h3]
          simp
      · intro hs hps
        dsimp only
        refine ⟨[.setupSuite, .panicked rn] ++
          hookTrace cfg.hasTearDownSuite cfg.tearDownSuitePanics
            .tearDownSuite rn, ?_⟩
        rw [hs, hps]
        simp [hookTrace]
    · have hnp : (cfg.hasSetupSuite && cfg.setupSuitePanics) = false := by
        cases h : (cfg.hasSetupSuite && cfg.setupSuitePanics)
        · rfl
        · exact absurd h hp
      rw [suiteRun_ok cfg rn mF xF sel hsel hne hnp] at hrun
      simp only [Except.ok.injEq] at hrun
      subst hrun
      refine ⟨?_, ?_, ?_⟩
      · dsimp only
        rw [opt_isSome_map, exec_si_isSome, initSState_si_isSome]
      · dsimp only
        simp only [List.count_append]
        have h1 : (hookTrace cfg.hasSetupSuite false Ev.setupSuite rn).count
            Ev.handleStats = 0 :=
          hookTrace_count_ne (fun h => Ev.noConfusion h)
            (fun h => Ev.noConfusion h)
        have h2 := exec_count_handleStats cfg rn (orderedTests sel)
          (initSState cfg)
        have h3 : (hookTrace cfg.hasTearDownSuite cfg.tearDownSuitePanics
            Ev.tearDownSuite rn).count Ev.handleStats = 0 :=
          hookTrace_count_ne (fun h => Ev.noConfusion h)
            (fun h => Ev.noConfusion h)
        rw [h1, h2, h3]
        cases hst : cfg.hasStats
        · simp only [hst, hookTrace_false]
          simp
        · simp only [hst]
          have h4 : (hookTrace true cfg.handleStatsPanics Ev.handleStats
              rn).count Ev.handleStats = 1 :=
            hookTrace_count_self (fun h => Ev.noConfusion h)
          rw [h4]
          simp
      · intro hs hps
        dsimp only
        refine ⟨hookTrace cfg.hasSetupSuite false .setupSuite rn ++
          (execTests cfg rn (orderedTests sel) (initSState cfg)).trace ++
          hookTrace cfg.hasTearDownSuite cfg.tearDownSuitePanics
            .tearDownSuite rn, ?_⟩
        rw [hs, hps]
        simp [hookTrace]
  · exact ⟨by decide, by decide, by decide⟩

/-- C7 (witness): the general part applied to the concrete two-test
statistics suite, every hypothesis discharged. -/
theorem c7_stats_witness :
    selectMethods .empty .empty statsScenarioCfg.methods =
        .ok statsScenarioCfg.methods ∧
    statsScenarioCfg.methods ≠ [] ∧
    suiteRun statsScenarioCfg "Root" .empty .empty =
        .ok (runOf statsScenarioCfg "Root") ∧
    (runOf statsScenarioCfg "Root").delivered.isSome =
        statsScenarioCfg.hasStats ∧
    (runOf statsScenarioCfg "Root").trace.count .handleStats =
        (if statsScenarioCfg.hasStats then 1 else 0) ∧
    ∃ pre, (runOf statsScenarioCfg "Root").trace = pre ++ [.handleStats] := by
  have h := c7_stats_delivered_once.1 statsScenarioCfg "Root" .empty .empty
    statsScenarioCfg.methods (runOf statsScenarioCfg "Root")
    (by decide) (by decide) (by decide)
  exact ⟨by decide, by decide, by decide, h.1, h.2.1, h.2.2 rfl rfl⟩

/-- C8 (counterexample): in the run of a one-test suite, the top-level
test node's parent reference is the root suite instance, not nil — the
claim's 'nil for top-level tests' fails. -/
theorem c8_counterexample :
    ¬ topLevelParentsNil oneTestCfg "Root" (runOf oneTestCfg "Root") := by
  unfold topLevelParentsNil
  decide

/-- C8 (amended): in every successful run only the root suite node has a
nil parent reference; every other context node's parent is the suite
instance of the node whose `Run` call created it (for a top-level test,
the root instance), and `Parent()` returns exactly the reference `setP`
stored. -/
theorem c8_parent_is_caller_suite :
    ∀ (cfg : SuiteCfg) (rn : String) (mF xF : FlagVal) (rr : RunResult),
      suiteRun cfg rn mF xF = .ok rr →
      ∃ rest, rr.nodes = ⟨rn, 0, none⟩ :: rest ∧
        (∀ nd ∈ rest, ∃ pn ∈ rr.nodes, childOf pn.path nd) ∧
        (∀ sel, selectMethods mF xF cfg.methods = .ok sel →
          (cfg.hasSetupSuite && cfg.setupSuitePanics) = false →
          ∀ m ∈ sel, ∃ k,
            (⟨rn ++ "/" ++ m.name, k, some rn⟩ : NodeInfo) ∈ rr.nodes) ∧
        (∀ (s : SuitePtrs) (v : Option Nat) (s2 : SuitePtrs),
          s.setP v = .ok s2 → s2.Parent = v) := by
  intro cfg rn mF xF rr hrun
  have hParent : ∀ (s : SuitePtrs) (v : Option Nat) (s2 : SuitePtrs),
      s.setP v = .ok s2 → s2.Parent = v := by
    intro s v s2 h
    unfold SuitePtrs.setP at h
    split at h
    · exact Except.noConfusion h
    · simp only [Except.ok.injEq] at h
      subst h
      rfl
  rcases hsel2 : selectMethods mF xF cfg.methods with e | sel
  · simp only [suiteRun, hsel2] at hrun
    exact Except.noConfusion hrun
  · by_cases hie : sel.isEmpty = true
    · have hsel0 : sel = [] := by
        cases sel with
        | nil => rfl
        | cons a l => exact Bool.noConfusion hie
      subst hsel0
      simp only [suiteRun, hsel2, List.isEmpty_nil, if_true,
        Except.ok.injEq] at hrun
      subst hrun
      refine ⟨[], rfl, ?_, ?_, hParent⟩
      · intro nd hnd
        exact absurd hnd (List.not_mem_nil nd)
      · intro sel2 hsel3 hnp m hm
        simp only [Except.ok.injEq] at hsel3
        subst hsel3
        exact absurd hm (List.not_mem_nil m)
    · have hne : sel ≠ [] := by
        intro hc
        subst hc
        exact hie rfl
      by_cases hp : (cfg.hasSetupSuite && cfg.setupSuitePanics) = true
      · rw [suiteRun_setupSuitePanic cfg rn mF xF sel hsel2 hne hp] at hrun
        simp only [Except.ok.injEq] at hrun
        subst hrun
        refine ⟨[], rfl, ?_, ?_, hParent⟩
        · intro nd hnd
          exact absurd hnd (List.not_mem_nil nd)
        · intro sel2 hsel3 hnp m hm
          rw [hp] at hnp
          exact Bool.noConfusion hnp
      · have hnp : (cfg.hasSetupSuite && cfg.setupSuitePanics) = false := by
          cases h : (cfg.hasSetupSuite && cfg.setupSuitePanics)
          · rfl
          · exact absurd h hp
        rw [suiteRun_ok cfg rn mF xF sel hsel2 hne hnp] at hrun
        simp only [Except.ok.injEq] at hrun
        subst hrun
        refine ⟨(execTests cfg rn (orderedTests sel) (initSState cfg)).nodes,
          rfl, ?_, ?_, hParent⟩
        · intro nd hnd
          rcases exec_parent cfg rn (orderedTests sel) (initSState cfg)
              nd hnd with hc | ⟨pn, hpn, hcp⟩
          · exact ⟨⟨rn, 0, none⟩, List.mem_cons_self _ _, hc⟩
          · exact ⟨pn, List.mem_cons_of_mem _ hpn, hcp⟩
        · intro sel2 hsel3 hnp2 m hm
          simp only [Except.ok.injEq] at hsel3
          subst hsel3
          obtain ⟨k, hk⟩ := exec_nodeMem cfg rn (orderedTests sel)
            (initSState cfg) m (mem_orderedTests hm)
          exact ⟨k, List.mem_cons_of_mem _ hk⟩

/-- C8 (witness): the amended characterization applied to the concrete
one-test suite run. -/
theorem c8_parent_witness :
    suiteRun oneTestCfg "Root" .empty .empty =
        .ok (runOf oneTestCfg "Root") ∧
    ∃ rest, (runOf oneTestCfg "Root").nodes = ⟨"Root", 0, none⟩ :: rest ∧
      (∀ nd ∈ rest, ∃ pn ∈ (runOf oneTestCfg "Root").nodes,
        childOf pn.path nd) ∧
      (∀ sel, selectMethods .empty .empty oneTestCfg.methods = .ok sel →
        (oneTestCfg.hasSetupSuite && oneTestCfg.setupSuitePanics) = false →
        ∀ m ∈ sel, ∃ k,
          (⟨"Root" ++ "/" ++ m.name, k, some "Root"⟩ : NodeInfo) ∈
            (runOf oneTestCfg "Root").nodes) ∧
      (∀ (s : SuitePtrs) (v : Option Nat) (s2 : SuitePtrs),
        s.setP v = .ok s2 → s2.Parent = v) :=
  ⟨by decide, c8_parent_is_caller_suite oneTestCfg "Root" .empty .empty
    (runOf oneTestCfg "Root") (by decide)⟩

/-- C9: every context node of a run carries a freshly allocated suite
instance (pairwise-distinct allocation ids across the whole run), `new(T)`
zero-initializes an instance's private data, and writing one instance's
slot never changes any other instance's slot — so private-data mutations
of one node are never visible through a sibling's instance. -/
theorem c9_private_data_isolation :
    (∀ (cfg : SuiteCfg) (rn : String) (mF xF : FlagVal) (rr : RunResult),
      suiteRun cfg rn mF xF = .ok rr →
      rr.nodes.Pairwise (fun a c => a.selfId ≠ c.selfId)) ∧
    (∀ i, initPriv i = 0) ∧
    (∀ (σ : Nat → Int) (i : Nat) (v : Int) (j : Nat), j ≠ i →
      writePriv σ i v j = σ j) := by
  refine ⟨?_, fun i => rfl, ?_⟩
  · intro cfg rn mF xF rr hrun
    rcases hsel2 : selectMethods mF xF cfg.methods with e | sel
    · simp only [suiteRun, hsel2] at hrun
      exact Except.noConfusion hrun
    · by_cases hie : sel.isEmpty = true
      · simp only [suiteRun, hsel2, hie, if_true, Except.ok.injEq] at hrun
        subst hrun
        simp
      · have hne : sel ≠ [] := by
          intro hc
          subst hc
          exact hie rfl
        by_cases hp : (cfg.hasSetupSuite && cfg.setupSuitePanics) = true
        · rw [suiteRun_setupSuitePanic cfg rn mF xF sel hsel2 hne hp] at hrun
          simp only [Except.ok.injEq] at hrun
          subst hrun
          simp
        · have hnp : (cfg.hasSetupSuite && cfg.setupSuitePanics) = false := by
            cases h : (cfg.hasSetupSuite && cfg.setupSuitePanics)
            · rfl
            · exact absurd h hp
          rw [suiteRun_ok cfg rn mF xF sel hsel2 hne hnp] at hrun
          simp only [Except.ok.injEq] at hrun
          subst hrun
          dsimp only
          obtain ⟨e1, e2, e3⟩ := exec_alloc cfg rn (orderedTests sel)
            (initSState cfg)
          refine List.pairwise_cons.mpr ⟨?_, ?_⟩
          · intro nd hnd
            have h5 := e2 nd hnd
            have hinit : (initSState cfg).nid = 1 := rfl
            dsimp only
            omega
          · exact e3.imp (fun h => Nat.ne_of_lt h)
  · intro σ i v j h
    unfold writePriv
    simp [h]

/-- C9 (witness): the isolation facts applied to the parallel suite run
and to a concrete private-data write. -/
theorem c9_isolation_witness :
    suiteRun parallelCfg "Root" .empty .empty =
        .ok (runOf parallelCfg "Root") ∧
    (runOf parallelCfg "Root").nodes.Pairwise
        (fun a c => a.selfId ≠ c.selfId) ∧
    (3 : Nat) ≠ 2 ∧ writePriv initPriv 2 7 3 = initPriv 3 :=
  ⟨by decide,
    c9_private_data_isolation.1 parallelCfg "Root" .empty .empty
      (runOf parallelCfg "Root") (by decide),
    by decide,
    c9_private_data_isolation.2.2 initPriv 2 7 3 (by decide)⟩

end Testify
